import Mathlib

/-!
Verification of the JDSignal extraction engine against its specification.

The definitions below are a shallow embedding of the Python sources
`backend/app/extractors/keyword_extractor.py`,
`backend/app/extractors/dynamic_extractor.py`,
`backend/app/extractors/role_inferrer.py` and
`backend/app/extractors/date_extractor.py`.

Modelling conventions:
* Texts are `List Char` (ASCII job-description text); Python `str.lower` is
  `Char.toLower` per character.
* Python `re` patterns are embedded as deterministic matchers.  Every pattern
  used by the sources is a concatenation of literals, character runs
  (`\d+`, `\s+`, `[a-z]+`), optional pieces and word boundaries, for which
  greedy left-to-right matching agrees with the backtracking semantics, or a
  pure existence check where only `re.search(...) is not None` is consumed.
* Python floats are embedded as `ℚ`; all scores produced by the engine are
  integer multiples of 1/10, where exact rational arithmetic and float
  arithmetic agree on the operations performed (sums and comparisons of small
  one-decimal values), and `round(x, 2)` is embedded as rounding half to even
  at two decimals.
* Python `dict` is an association list with insert-keeps-position /
  overwrite-updates-value semantics; Python `set` is a list with
  insert-if-absent semantics (iteration order of sets is modelled as insertion
  order; every use in the sources is order-insensitive).
* `datetime` values are embedded as day numbers (`Int`, days from civil
  epoch); `datetime.utcnow()` is an explicit `now` parameter, as set by the
  repository's tests which fix "now" when checking date parsing.
-/

/- Batteries marks the arithmetic of `Rat` irreducible, which blocks the
evaluation of the embedded scoring pipeline inside `decide`; the engine's
exact rational scores must evaluate, so the arithmetic is restored to its
normal reducibility for this file. -/
set_option allowUnsafeReducibility true
attribute [local semireducible] Rat.add Rat.mul Rat.sub Rat.inv Rat.div

namespace JDSignal

abbrev Str := List Char

def lowerS (s : Str) : Str := s.map Char.toLower

def upperS (s : Str) : Str := s.map Char.toUpper

/-- Python `[a-zA-Z0-9]` (the class used by `find_keyword_positions`). -/
def isAlnumC (c : Char) : Bool := c.isAlpha || c.isDigit

/-- Python regex word character `\w` over ASCII: letters, digits, underscore. -/
def isWordChar (c : Char) : Bool := isAlnumC c || c = '_'

/-- Python regex `\s` over ASCII: space, tab, newline, carriage return,
form feed, vertical tab. -/
def isSpaceC (c : Char) : Bool :=
  c = ' ' || c = '\t' || c = '\n' || c = '\r' || c.toNat = 12 || c.toNat = 11

/-- First list is a leading segment of the second. -/
def headMatch : Str → Str → Bool
  | [], _ => true
  | _ :: _, [] => false
  | p :: ps, t :: ts => p = t && headMatch ps ts

/-- Python substring containment `needle in hay`. -/
def containsSub (hay needle : Str) : Bool :=
  headMatch needle hay ||
    match hay with
    | [] => false
    | _ :: t => containsSub t needle

/-- Python slice `s[a:b]` for `a ≤ b` (the only form the sources use). -/
def sliceL (s : Str) (a b : Nat) : Str := (s.take b).drop a

def charAt (s : Str) (i : Nat) : Option Char := s.get? i

def wordAt (s : Str) (i : Nat) : Bool :=
  match charAt s i with
  | some c => isWordChar c
  | none => false

def alnumAt (s : Str) (i : Nat) : Bool :=
  match charAt s i with
  | some c => isAlnumC c
  | none => false

/-- Regex `\b` holds between positions `i-1` and `i` (out-of-range counts as
a non-word character). -/
def boundaryAt (s : Str) (i : Nat) : Bool :=
  (if i = 0 then false else wordAt s (i - 1)) != wordAt s i

/-- Length of the leading run of characters satisfying `f`. -/
def runLen (f : Char → Bool) : Str → Nat
  | [] => 0
  | c :: cs => if f c then runLen f cs + 1 else 0

/-- Numeric value of a digit string (Python `int` on a `\d+` capture). -/
def natOfDigits (s : Str) : Nat :=
  s.foldl (fun acc c => acc * 10 + (c.toNat - 48)) 0

/-- Literal match of `pat` starting at position `i` of `t` (case-sensitive;
callers lower both sides to model `re.IGNORECASE`). -/
def litAt (t pat : Str) (i : Nat) : Bool := headMatch pat (t.drop i)

/-! ### Deterministic pattern matchers

A `Pat` consumes text from a position and returns the end position of a match
starting there, or `none`.  Each embedded regex is built from these so that a
reviewer can compare it token by token with the Python pattern. -/

def Pat := Str → Nat → Option Nat

/-- Literal token. -/
def pLit (s : String) : Pat := fun t i =>
  if litAt t s.data i then some (i + s.data.length) else none

/-- Literal token given as a char list (for keywords computed at runtime). -/
def pLitL (s : Str) : Pat := fun t i =>
  if litAt t s i then some (i + s.length) else none

/-- Sequencing. -/
def pThen (p q : Pat) : Pat := fun t i => (p t i).bind (q t)

/-- Ordered alternation (`x|y`). -/
def pOr (p q : Pat) : Pat := fun t i => (p t i) <|> (q t i)

/-- Optional piece (`(...)?`). -/
def pOpt (p : Pat) : Pat := fun t i =>
  match p t i with
  | some j => some j
  | none => some i

/-- `\s*`. -/
def pWs : Pat := fun t i => some (i + runLen isSpaceC (t.drop i))

/-- `\s+`. -/
def pWs1 : Pat := fun t i =>
  let n := runLen isSpaceC (t.drop i)
  if n = 0 then none else some (i + n)

/-- `\b`. -/
def pBnd : Pat := fun t i => if boundaryAt t i then some i else none

/-- Single character from a class. -/
def pCls (f : Char → Bool) : Pat := fun t i =>
  match charAt t i with
  | some c => if f c then some (i + 1) else none
  | none => none

/-- `[:：]` — ASCII colon or the fullwidth colon U+FF1A used in the sources. -/
def pColon : Pat := pCls (fun c => c = ':' || c.toNat = 0xFF1A)

/-- `\bword\b` (for a literal whose first and last characters are word
characters, as in all the indicator phrases of the sources). -/
def pWord (s : String) : Pat := pThen pBnd (pThen (pLit s) pBnd)

/-- Optional trailing literal plus `\b`, e.g. `requirements?\b`.  Greedy
matching of the optional piece agrees with backtracking because a rejected
boundary after the consumed piece implies a rejected boundary without it. -/
def pOptLitBnd (s : String) : Pat := pThen (pOpt (pLit s)) pBnd

/-- Does the pattern match anywhere in the text (`re.search(...) is not None`)? -/
def patFound (p : Pat) (t : Str) : Bool :=
  (List.range (t.length + 1)).any (fun i => (p t i).isSome)

/-- Any of the patterns matches somewhere in the text. -/
def anyFound (ps : List Pat) (t : Str) : Bool := ps.any (fun p => patFound p t)

def scanGo (p : Pat) (t : Str) : Nat → Nat → List (Nat × Nat)
  | 0, _ => []
  | fuel + 1, i =>
    if i > t.length then []
    else
      match p t i with
      | some j => (i, j) :: scanGo p t fuel (max j (i + 1))
      | none => scanGo p t fuel (i + 1)

/-- All matches of `p` in `t`, leftmost and non-overlapping (`re.finditer`). -/
def patMatches (p : Pat) (t : Str) : List (Nat × Nat) :=
  scanGo p t (t.length + 1) 0

/-- First match of `p` in `t` (`re.search`). -/
def patFirst (p : Pat) (t : Str) : Option (Nat × Nat) := (patMatches p t).head?

/-! ### `find_keyword_positions` -/

/-- Python `re.search(r'[^a-zA-Z0-9]', keyword)`: the keyword contains a
character that is not alphanumeric. -/
def hasSpecial (kw : Str) : Bool := kw.any (fun c => !(isAlnumC c))

/-- Case-insensitive match of `kw` at `i`, with either the lookaround
boundaries `(?<![a-zA-Z0-9])kw(?![a-zA-Z0-9])` (`lookaround = true`) or plain
`\bkw\b` boundaries. -/
def kwMatchAt (t kw : Str) (lookaround : Bool) (i : Nat) : Bool :=
  litAt (lowerS t) (lowerS kw) i &&
    (if lookaround then
      (if i = 0 then true else !(alnumAt t (i - 1))) && !(alnumAt t (i + kw.length))
    else
      boundaryAt t i && boundaryAt t (i + kw.length))

def kwScanGo (t kw : Str) (lookaround : Bool) : Nat → Nat → List (Nat × Nat)
  | 0, _ => []
  | fuel + 1, i =>
    if i > t.length then []
    else if kwMatchAt t kw lookaround i then
      (i, i + kw.length) :: kwScanGo t kw lookaround fuel (i + max kw.length 1)
    else kwScanGo t kw lookaround fuel (i + 1)

/-- `find_keyword_positions(text, keyword)`: all case-insensitive occurrences,
with lookaround boundaries for keywords containing a special character (such as
`C#` or `.NET`) and `\b` boundaries otherwise. -/
def findKeywordPositions (text kw : Str) : List (Nat × Nat) :=
  kwScanGo text kw (hasSpecial kw) (text.length + 1) 0

/-- Occurrence count `len(re.findall(r'\b' + re.escape(term) + r'\b', text,
re.IGNORECASE))` used by the dynamic extractor. -/
def countWordOcc (text kw : Str) : Nat :=
  (kwScanGo text kw false (text.length + 1) 0).length

/-! ### Context classifier (`keyword_extractor.py`) -/

/-- `MUST_HAVE_INDICATORS`. -/
def mustHaveIndicators : List Pat :=
  [ pThen pBnd (pThen (pLit "requirement") (pOptLitBnd "s")),
    pThen pBnd (pThen (pLit "must") (pThen pWs1 (pThen (pLit "have") pBnd))),
    pWord "essential",
    pThen pBnd (pThen (pLit "we") (pThen pWs1 (pThen (pLit "require") pBnd))),
    pWord "required",
    pWord "mandatory",
    pThen pBnd (pThen (pLit "qualification") (pOptLitBnd "s")),
    pWord "needed",
    pWord "necessary" ]

/-- `NICE_TO_HAVE_INDICATORS`. -/
def niceToHaveIndicators : List Pat :=
  [ pThen pBnd (pThen (pLit "nice") (pThen pWs1 (pThen (pLit "to")
      (pThen pWs1 (pThen (pLit "have") pBnd))))),
    pWord "preferred",
    pWord "bonus",
    pWord "desirable",
    pWord "advantage",
    pWord "plus",
    pThen pBnd (pThen (pLit "would") (pThen pWs1 (pThen (pLit "be")
      (pThen pWs1 (pThen (pLit "great") pBnd))))),
    pWord "optional",
    pThen pBnd (pThen (pLit "bonus") (pThen pWs1 (pThen (pLit "experience") pBnd))),
    pThen pBnd (pThen (pLit "bonus") (pThen pWs1 (pThen (pLit "skill") (pOptLitBnd "s")))),
    pThen pBnd (pThen (pLit "would") (pThen pWs1 (pThen (pLit "be")
      (pThen pWs1 (pThen (pLit "advantageous") pBnd))))),
    pThen pBnd (pThen (pLit "would") (pThen pWs1 (pThen (pLit "be")
      (pThen pWs1 (pThen (pLit "an") (pThen pWs1 (pThen (pLit "advantage") pBnd))))))),
    pThen pBnd (pThen (pLit "however") (pThen pWs1 (pThen (pLit "knowledge")
      (pThen pWs1 (pThen (pLit "of") pBnd))))),
    pWord "advantageous",
    pThen pBnd (pThen (pLit "preferred") (pThen pWs1 (pThen (pLit "but")
      (pThen pWs1 (pThen (pLit "not") (pThen pWs1 (pThen (pLit "required") pBnd))))))) ]

/-- `is_in_section(text, position, indicators, window=500)`. -/
def isInSection (text : Str) (pos : Nat) (indicators : List Pat) (window : Nat := 500) : Bool :=
  let start := pos - window
  let stop := min text.length (pos + window)
  let sect := lowerS (sliceL text start stop)
  anyFound indicators sect

/-- `bonus\s+(?:experience|skills?)[:：]` — the gate used by the tech-stack and
main-skills checks. -/
def bonusGatePat : Pat :=
  pThen (pLit "bonus") (pThen pWs1
    (pThen (pOr (pLit "experience") (pThen (pLit "skill") (pOpt (pLit "s")))) pColon))

/-- The seven `tech_stack_patterns`. -/
def techStackPats : List Pat :=
  [ pThen (pLit "tech") (pThen pWs1 (pThen (pLit "stack") pColon)),
    pThen (pLit "technology") (pThen pWs1 (pThen (pLit "stack") pColon)),
    pThen (pLit "our") (pThen pWs1 (pThen (pLit "tech") (pThen pWs1 (pThen (pLit "stack") pColon)))),
    pThen (pLit "our") (pThen pWs1 (pThen (pLit "technology") (pThen pWs1 (pThen (pLit "stack") pColon)))),
    pThen (pLit "tech") pColon,
    pThen (pLit "technologies") pColon,
    pThen (pLit "stack") pColon ]

/-- `is_in_tech_stack_section(text, position, window=500)`: a tech-stack
heading occurs in the 500 characters before the occurrence and no
bonus-experience heading occurs in that same window. -/
def isInTechStackSection (text : Str) (pos : Nat) (window : Nat := 500) : Bool :=
  let start := pos - window
  let sectionBefore := lowerS (sliceL text start pos)
  techStackPats.any (fun p =>
    patFound p sectionBefore && !(patFound bonusGatePat sectionBefore))

/-- The three `bonus_patterns` of `is_in_bonus_experience_section`. -/
def bonusPats : List Pat :=
  [ pThen (pLit "bonus") (pThen pWs1 (pThen (pLit "experience") pColon)),
    pThen (pLit "bonus") (pThen pWs1 (pThen (pLit "skill") (pThen (pOpt (pLit "s")) pColon))),
    pThen (pLit "bonus") pColon ]

/-- `^(?:skills?|requirements?|qualifications?|experience\s+and\s+other)[:：]`
with `re.MULTILINE`: earliest line-start match position in `t`. -/
def nextSectionStart (t : Str) : Option Nat :=
  let pat : Pat :=
    pThen
      (pOr (pThen (pLit "skill") (pOpt (pLit "s")))
        (pOr (pThen (pLit "requirement") (pOpt (pLit "s")))
          (pOr (pThen (pLit "qualification") (pOpt (pLit "s")))
            (pThen (pLit "experience") (pThen pWs1 (pThen (pLit "and") (pThen pWs1 (pLit "other"))))))))
      pColon
  ((List.range (t.length + 1)).filter (fun i =>
      (i = 0 || charAt t (i - 1) = some '\n') && (pat t i).isSome)).head?

/-- `is_in_bonus_experience_section(text, position, window=2000)`. -/
def isInBonusExperienceSection (text : Str) (pos : Nat) (window : Nat := 2000) : Bool :=
  let start := pos - window
  let beforeText := lowerS (sliceL text start pos)
  bonusPats.any (fun p =>
    match (patMatches p beforeText).getLast? with
    | none => false
    | some lastM =>
      let bonusPos := start + lastM.2
      decide (pos - bonusPos < 1000) &&
        (let remaining := lowerS (sliceL text bonusPos (min text.length (bonusPos + 2000)))
         match nextSectionStart remaining with
         | none => true
         | some s => decide (pos < bonusPos + s)))

/-- The eight `main_skills_patterns`. -/
def mainSkillsPats : List Pat :=
  [ pThen (pLit "skill") (pThen (pOpt (pLit "s")) (pThen pWs1 (pThen (pLit "and")
      (pThen pWs1 (pThen (pLit "tool") (pThen (pOpt (pLit "s")) pColon)))))),
    pThen (pLit "skill") (pThen (pOpt (pLit "s")) pColon),
    pThen (pLit "requirement") (pThen (pOpt (pLit "s")) pColon),
    pThen (pLit "qualification") (pThen (pOpt (pLit "s")) pColon),
    pThen (pLit "experience") (pThen pWs1 (pThen (pLit "and") (pThen pWs1
      (pThen (pLit "other") (pThen pWs1 (pThen (pLit "requirement") (pThen (pOpt (pLit "s")) pColon))))))),
    pThen (pLit "technical") (pThen pWs1 (pThen (pLit "skill") (pThen (pOpt (pLit "s")) pColon))),
    pThen (pLit "core") (pThen pWs1 (pThen (pLit "skill") (pThen (pOpt (pLit "s")) pColon))),
    pThen (pLit "essential") (pThen pWs1 (pThen (pLit "skill") (pThen (pOpt (pLit "s")) pColon))) ]

/-- `is_in_main_skills_section(text, position, window=1000)`. -/
def isInMainSkillsSection (text : Str) (pos : Nat) (window : Nat := 1000) : Bool :=
  if isInBonusExperienceSection text pos then false
  else
    let start := pos - window
    let sectionBefore := lowerS (sliceL text start pos)
    mainSkillsPats.any (fun p =>
      match (patMatches p sectionBefore).getLast? with
      | none => false
      | some lastM =>
        let remaining := lowerS (sliceL text (start + lastM.2) pos)
        !(patFound bonusGatePat remaining))

/-- `would\s+be\s+advantageous|would\s+be\s+an\s+advantage|advantageous`. -/
def advantageousPat : Pat :=
  pOr (pThen (pLit "would") (pThen pWs1 (pThen (pLit "be") (pThen pWs1 (pLit "advantageous")))))
    (pOr (pThen (pLit "would") (pThen pWs1 (pThen (pLit "be")
        (pThen pWs1 (pThen (pLit "an") (pThen pWs1 (pLit "advantage")))))))
      (pLit "advantageous"))

/-- No `.` character in `s[a:b]` (the `[^.]*?` gaps of the contextual
patterns; any other character, including newlines and whitespace, may appear). -/
def noDot (s : Str) (a b : Nat) : Bool := (sliceL s a b).all (fun c => c != '.')

/-- Existence of a match of
`however\s+[^.]*?KW[^.]*?(?:would\s+be\s+advantageous|...|advantageous)`:
a lazy `[^.]*?` gap can absorb surplus whitespace, so a match exists exactly
when some `however` followed by a whitespace character is followed, across
dot-free gaps, by the keyword and then an advantageous-phrase. -/
def contextualPattern1 (s kw : Str) : Bool :=
  (List.range (s.length + 1)).any (fun i =>
    litAt s "however".data i &&
      (match charAt s (i + 7) with | some c => isSpaceC c | none => false) &&
      (List.range (s.length + 1)).any (fun j =>
        decide (i + 8 ≤ j) && noDot s (i + 8) j && litAt s kw j &&
          (List.range (s.length + 1)).any (fun k =>
            decide (j + kw.length ≤ k) && noDot s (j + kw.length) k &&
              (advantageousPat s k).isSome)))

/-- Existence of a match of `however\s+[^.]*?knowledge\s+of\s+[^.]*?KW`. -/
def contextualPattern2 (s kw : Str) : Bool :=
  let knowledgeOf : Pat :=
    pThen (pLit "knowledge") (pThen pWs1 (pThen (pLit "of") pWs1))
  (List.range (s.length + 1)).any (fun i =>
    litAt s "however".data i &&
      (match charAt s (i + 7) with | some c => isSpaceC c | none => false) &&
      (List.range (s.length + 1)).any (fun j =>
        decide (i + 8 ≤ j) && noDot s (i + 8) j &&
          (match knowledgeOf s j with
           | none => false
           | some a =>
             (List.range (s.length + 1)).any (fun k =>
               decide (a ≤ k) && noDot s a k && litAt s kw k))))

/-- `check_contextual_nice_to_have(text, position, keyword, window=300)`. -/
def checkContextualNiceToHave (text : Str) (pos : Nat) (keyword : Str) : Bool :=
  if isInBonusExperienceSection text pos then true
  else if isInMainSkillsSection text pos then false
  else
    let start := pos - 300
    let stop := min text.length (pos + 300)
    let sectionLower := lowerS (sliceL text start stop)
    let kwLower := lowerS keyword
    if contextualPattern1 sectionLower kwLower then true
    else if contextualPattern2 sectionLower kwLower then
      let remaining := lowerS (sliceL text pos (min text.length (pos + 200)))
      patFound advantageousPat remaining
    else false

/-- Line start under `re.MULTILINE`: beginning of the string or just after a
newline. -/
def lineStartAt (s : Str) (i : Nat) : Bool :=
  i = 0 || charAt s (i - 1) = some '\n'

/-- `is_in_heading_or_bullet(text, position, window=200)`: the 200 characters
before the occurrence contain a line matching
`^#+\s+|^[A-Z][^.!?]*:$|^[-*•]\s+` (searched case-sensitively). -/
def isInHeadingOrBullet (text : Str) (pos : Nat) : Bool :=
  let s := sliceL text (pos - 200) pos
  (List.range (s.length + 1)).any (fun i =>
    lineStartAt s i &&
      ((runLen (fun c => c = '#') (s.drop i) ≠ 0 &&
          runLen isSpaceC (s.drop (i + runLen (fun c => c = '#') (s.drop i))) ≠ 0) ||
        ((match charAt s i with | some c => c.isUpper | none => false) &&
          (List.range (s.length + 1)).any (fun j =>
            decide (i + 1 ≤ j) && charAt s j = some ':' &&
              (sliceL s (i + 1) j).all (fun c => c != '.' && c != '!' && c != '?') &&
              (decide (j + 1 = s.length) || charAt s (j + 1) = some '\n'))) ||
        ((match charAt s i with
          | some c => c = '-' || c = '*' || c.toNat = 0x2022
          | none => false) &&
          runLen isSpaceC (s.drop (i + 1)) ≠ 0)))

/-! ### Skill dictionary and scoring pipeline (`extract_keywords`) -/

/-- An entry of `skill_dictionary.json`: `{term, category, aliases}` (spec §3,
§6). -/
structure Skill where
  term : Str
  category : Str
  aliases : List Str
deriving DecidableEq

/-- A value of the `keyword_scores` collection / the returned `keywords` list. -/
structure KwEntry where
  term : Str
  category : Str
  score : ℚ
  count : Nat
deriving DecidableEq

/-- Python `dict` assignment `m[k] = v`: an existing key keeps its insertion
position and gets the new value; a new key is appended. -/
def dictUpsert {α : Type} (m : List (Str × α)) (k : Str) (v : α) : List (Str × α) :=
  if m.any (fun p => decide (p.1 = k)) then
    m.map (fun p => if p.1 = k then (k, v) else p)
  else m ++ [(k, v)]

/-- Python `dict` lookup. -/
def alookup {α : Type} (m : List (Str × α)) (k : Str) : Option α :=
  (m.find? (fun p => decide (p.1 = k))).map (·.2)

/-- `create_skill_mapping`: `(alias_to_canonical, canonical_to_info)`. -/
def createSkillMapping (skills : List Skill) : List (Str × Str) × List (Str × Skill) :=
  skills.foldl
    (fun acc sk =>
      let c2i := dictUpsert acc.2 (lowerS sk.term) sk
      let a2c := dictUpsert acc.1 (lowerS sk.term) sk.term
      let a2c := sk.aliases.foldl (fun m al => dictUpsert m (lowerS al) sk.term) a2c
      (a2c, c2i))
    ([], [])

/-- The per-occurrence context accumulator of the `for pos, _ in positions`
loop of `extract_keywords`. -/
structure OccCtx where
  techBonus : ℚ
  niceBonus : ℚ
  mustBonus : ℚ
  headingBonus : ℚ
  hasBonusExperience : Bool
  hasSkillsTools : Bool
  hasTechStack : Bool
  hasNiceIndicator : Bool
  hasMustIndicator : Bool
deriving DecidableEq

def occInit : OccCtx := ⟨0, 0, 0, 0, false, false, false, false, false⟩

/-- Tech-stack statement of the occurrence loop. -/
def occTech (text : Str) (st : OccCtx) (pos : Nat) : OccCtx :=
  if isInTechStackSection text pos then
    { st with techBonus := st.techBonus + 5, hasTechStack := true }
  else st

/-- Bonus-experience / contextual nice-to-have statement of the loop. -/
def occBonusCtx (text al : Str) (st : OccCtx) (pos : Nat) : OccCtx :=
  if isInBonusExperienceSection text pos then
    { st with hasBonusExperience := true, niceBonus := st.niceBonus + 2 }
  else if checkContextualNiceToHave text pos al then
    { st with hasNiceIndicator := true, niceBonus := st.niceBonus + 3 / 2 }
  else st

/-- Main-skills statement of the loop. -/
def occSkills (text : Str) (st : OccCtx) (pos : Nat) : OccCtx :=
  if isInMainSkillsSection text pos then
    { st with hasSkillsTools := true, mustBonus := st.mustBonus + 3 }
  else st

/-- Nice-to-have-indicator statement of the loop, gated on the running
`has_skills_tools_context` flag. -/
def occNiceInd (text : Str) (st : OccCtx) (pos : Nat) : OccCtx :=
  if !st.hasSkillsTools && isInSection text pos niceToHaveIndicators then
    { st with hasNiceIndicator := true, niceBonus := st.niceBonus + 3 / 2 }
  else st

/-- Must-have-indicator statement of the loop. -/
def occMustInd (text : Str) (st : OccCtx) (pos : Nat) : OccCtx :=
  if isInSection text pos mustHaveIndicators then
    { st with hasMustIndicator := true, mustBonus := st.mustBonus + 3 }
  else st

/-- Heading/bullet statement of the loop. -/
def occHeading (text : Str) (st : OccCtx) (pos : Nat) : OccCtx :=
  if isInHeadingOrBullet text pos then
    { st with headingBonus := st.headingBonus + 2 }
  else st

/-- One iteration of the occurrence loop, in source order: tech stack, bonus
experience / contextual nice-to-have, main skills, nice-to-have indicators
(gated on the running `has_skills_tools_context` flag), must-have indicators,
heading/bullet. -/
def occStep (text al : Str) (st : OccCtx) (pos : Nat) : OccCtx :=
  occHeading text (occMustInd text (occNiceInd text (occSkills text
    (occBonusCtx text al (occTech text st pos) pos) pos) pos) pos) pos

def aliasOccCtx (text al : Str) (positions : List Nat) : OccCtx :=
  positions.foldl (occStep text al) occInit

/-- The `category_weights` table (`dict.get(category, 1.0)`). -/
def categoryWeight (cat : Str) : ℚ :=
  if cat = "testing".data then 3 / 2
  else if cat = "language".data then 13 / 10
  else if cat = "framework".data then 6 / 5
  else if cat = "devops".data then 11 / 10
  else if cat = "cloud".data then 11 / 10
  else if cat = "platform".data then 1
  else if cat = "data".data then 1
  else if cat = "process".data then 4 / 5
  else if cat = "tool".data then 9 / 10
  else if cat = "architecture".data then 1
  else if cat = "unknown".data then 7 / 10
  else 1

/-- Title bonus: +3.0 once if the alias or the canonical term occurs (as a
substring) in the lowercased first 200 characters. -/
def titleBonus (text al canonical : Str) : ℚ :=
  let titleText := lowerS (text.take 200)
  if containsSub titleText (lowerS al) || containsSub titleText (lowerS canonical) then 3
  else 0

/-- `total_score` for one alias of a canonical term. -/
def aliasScore (text al canonical category : Str) (positions : List Nat) : ℚ :=
  let occ := aliasOccCtx text al positions
  (positions.length : ℚ) * categoryWeight category + occ.mustBonus + occ.niceBonus +
    occ.headingBonus + titleBonus text al canonical + occ.techBonus

/-- Python `set.add` modelled on lists (insertion order retained). -/
def setInsert (l : List Str) (x : Str) : List Str :=
  if x ∈ l then l else l ++ [x]

/-- State threaded through the `for alias, canonical in alias_to_canonical`
loop: `keyword_scores`, `must_have_terms`, `nice_to_have_terms`. -/
structure PipeState where
  scores : List (Str × KwEntry)
  must : List Str
  nice : List Str
deriving DecidableEq

/-- One iteration of the alias loop of `extract_keywords`. -/
def dictStep (text : Str) (c2i : List (Str × Skill)) (st : PipeState) (e : Str × Str) :
    PipeState :=
  let al := e.1
  let canonical := e.2
  let positions := (findKeywordPositions text al).map (·.1)
  if positions = [] then st
  else
    let category :=
      match alookup c2i (lowerS canonical) with
      | some sk => sk.category
      | none => "unknown".data
    let occ := aliasOccCtx text al positions
    let mustNice : List Str × List Str :=
      if occ.hasBonusExperience then (st.must, setInsert st.nice canonical)
      else if occ.hasSkillsTools || occ.hasTechStack then (setInsert st.must canonical, st.nice)
      else if occ.hasNiceIndicator && !occ.hasMustIndicator then
        (st.must, setInsert st.nice canonical)
      else if occ.hasMustIndicator then (setInsert st.must canonical, st.nice)
      else (st.must, st.nice)
    let total := aliasScore text al canonical category positions
    let entry : KwEntry := ⟨canonical, category, total, positions.length⟩
    let scores :=
      match alookup st.scores (lowerS canonical) with
      | none => dictUpsert st.scores (lowerS canonical) entry
      | some old =>
        if old.score < total then dictUpsert st.scores (lowerS canonical) entry
        else st.scores
    ⟨scores, mustNice.1, mustNice.2⟩

/-- The state after the whole dictionary-matching loop. -/
def dictPhase (skills : List Skill) (text : Str) : PipeState :=
  let maps := createSkillMapping skills
  maps.1.foldl (dictStep text maps.2) ⟨[], [], []⟩

/-- The `must_have_terms` / `nice_to_have_terms` sets as they stand before the
final de-duplication safety net (spec §4.6). -/
def extractSets (skills : List Skill) (text : Str) : List Str × List Str :=
  ((dictPhase skills text).must, (dictPhase skills text).nice)

/-! ### Data tables from the sources -/

/-- The `COMMON_KEYWORDS_TO_FILTER` denylist (membership-only set). -/
def commonKeywordsToFilter : List Str :=
  (["does", "http", "yrs", "requirement", "hybrid", "nz", "summary", "should", "dunedin", "eoe", "overview", "full-time", "vacancies", "more", "part-time", "years", "could", "areas", "here", "remuneration", "wages", "required", "abilities", "organisation", "yr", "phone", "candidates", "please", "these", "compensation", "thanks", "but", "region", "email", "work", "regions", "positions", "months", "workplace", "this", "qualified", "information technology", "been", "do", "apply", "remote", "working", "had", "chc", "full time", "applicant", "year", "locations", "zealand", "might", "wlg", "wellington", "role", "work from home", "was", "will", "salary", "united states", "ham", "cities", "see", "job", "https", "hamilton", "sincerely", "america", "applicants", "contract", "candidate", "wfh", "teams", "detail", "view", "team", "opportunities", "can", "would", "must", "did", "application", "it", "akl", "location", "about", "employer", "thank", "information", "skill", "qualify", "tau", "equal", "that", "eeo", "roles", "benefit", "usa", "website", "new zealand", "seek", "has", "companies", "seek.co.nz", "christchurch", "dun", "qualification", "on-site", "requirements", "month", "diversity", "tauranga", "then", "wage", "au", "permanent", "linkedin", "area", "click", "are", "were", "auckland", "skills", "benefits", "may", "is", "us", "telephone", "workforce", "temp", "regards", "organization", "australia", "vacancy", "capability", "ability", "indeed", "the", "city", "details", "www", "being", "description", "and", "company", "an", "a", "onsite", "else", "opportunity", "part time", "contact", "have", "casual", "jobs", "experience", "package", "qualifications", "cbd", "inclusive", "if", "qualifying", "position", "capabilities", "or", "those", "be", "employers", "new", "temporary"] : List String).map String.data

/-- The `CERTIFICATIONS` list. -/
def certificationsList : List Str :=
  (["AWS Certified", "AWS Solutions Architect", "AWS Developer", "Azure Certified", "Azure Solutions Architect", "GCP Certified", "Google Cloud Professional", "PMP", "Project Management Professional", "Scrum Master", "Certified Scrum Master", "CSM", "CISSP", "Cisco Certified", "CCNA", "CCNP", "Oracle Certified", "Microsoft Certified", "MCSE", "Kubernetes Certified", "CKA", "CKAD", "ISTQB", "Salesforce Certified", "Salesforce Administrator", "Teradata Certified", "Red Hat Certified", "RHCE"] : List String).map String.data

/-- The `tech_short_acronyms` allowlist of `should_filter_keyword`. -/
def techShortAcronyms : List Str :=
  (["acl", "ai", "api", "aws", "bdd", "bi", "cd", "cdn", "ci", "cli", "crm", "css", "csv", "ddd", "dns", "erp", "etl", "gcp", "html", "ide", "iot", "iso", "json", "jwt", "k8s", "ml", "pdf", "qa", "rpc", "sdk", "sql", "ssh", "ssl", "tdd", "tls", "tsv", "ui", "uri", "url", "ux", "vpn", "xml", "yaml"] : List String).map String.data

/-- The `common_short` set of `should_filter_keyword`. -/
def commonShortTerms : List Str :=
  (["akl", "au", "cbd", "ceo", "cfo", "chc", "cto", "dun", "eeo", "eoe", "eu", "ham", "hr", "it", "nz", "tau", "uk", "us", "wfh", "wlg", "www"] : List String).map String.data

/-- The `month_names` set of `should_filter_keyword`. -/
def monthNames : List Str :=
  (["apr", "april", "aug", "august", "dec", "december", "feb", "february", "jan", "january", "jul", "july", "jun", "june", "mar", "march", "may", "nov", "november", "oct", "october", "sep", "sept", "september"] : List String).map String.data

/-- The `tech_acronyms` allowlist of `extract_acronyms` (a Python set literal; duplicates collapse). -/
def techAcronymsAllow : List Str :=
  (["SMTP", "GAL", "RPC", "Flux", "Bamboo", "ActiveDirectory", "Abstract", "Xorg", "Sentry", "gEDA", "VPN", "AD", "HIPAA", "Siemens", "SMT", "TurboSquid", "Gliffy", "React360", "OpenID", "Balsamiq", "DSP", "Marvel", "WooCommerce", "Git", "Grafana", "IMAP", "KeyCreator", "BDD", "OrCAD", "Mockplus", "Maya", "EPU", "Tinkercad", "Substance", "FTP", "HTML", "YAGNI", "QA", "K8s", "ACL", "Houdini", "CRM", "TinyCAD", "ELK", "MSOP", "Ensighten", "PADS", "POP3", "GPU", "COMSOL", "Ansible", "SPU", "BPU", "PlantUML", "Adobe", "JSON", "OpenShift", "DLP", "Rancher", "NI", "RDP", "Dynatrace", "CA", "Sketch", "D3.js", "SCP", "SSE", "Pro/E", "Simulink", "Toolbag", "SIEM", "CI", "Webflow", "SendGrid", "Megascans", "Eloqua", "NPU", "RBAC", "Ultiboard", "CD", "XSS", "CSV", "Nomad", "PLD", "Klarna", "DoS", "Axure", "GitLab", "Fritzing", "HTTPS", "DHCP", "Proto.io", "NX", "WAF", "Three.js", "AI", "Prometheus", "Amplitude", "ZBrush", "NTP", "CPLD", "Unreal", "Telnet", "Babylon.js", "Segment", "Xen", "GoCD", "Fusion360", "EPLD", "OIDC", "Altium", "DPU", "TSV", "CGTrader", "Raygun", "LogRocket", "A-Frame", "MCM", "Datadog", "Zeplin", "DDD", "AutoCAD", "SAML2", "Rhino", "Creo", "Tealium", "Afterpay", "NoSQL", "CLI", "ANSYS", "WebSocket", "Puppet", "Synopsys", "OAuth", "JWT", "CVS", "SmartDraw", "Vault", "YAML", "Pardot", "Sketchfab", "CDN", "LDAP", "ArgoCD", "SOC2", "SOP", "AWS", "SolidEdge", "THT", "QFP", "FullStory", "SSL", "VNC", "Quixel", "ASIC", "UX", "MATLAB", "SQL", "CORS", "SoC", "GDPR", "NLP", "mParticle", "SSH", "MCU", "KISS", "MockFlow", "SolidWorks", "SDK", "Grasshopper", "CATIA", "CSP", "SpaceClaim", "Braintree", "InVision", "Mixpanel", "Poly", "Mentor", "ML", "SVN", "Mailchimp", "FPGA", "QPU", "UI", "NewRelic", "VPU", "Snowplow", "KVM", "KiCad", "PKI", "BigCommerce", "Zuken", "HubSpot", "LabVIEW", "JIRA", "Wix", "Hyper-V", "SaaS", "DFN", "FCBGA", "PPU", "HTTP", "Mesos", "Marketo", "Squarespace", "AdobeXD", "FluidUI", "BGA", "Mockingbird", "Jenkins", "Pulsonix", "Bitbucket", "Terraform", "Framer", "REST", "SiP", "ERP", "FCCSP", "PDF", "Wireframe", "Draw.io", "Clara.io", "Abaqus", "XML", "Justinmind", "CSS", "SaltStack", "SFTP", "3DExport", "yEd", "TravisCI", "AppDynamics", "Sezzle", "WLCSP", "TLS", "Splunk", "SketchUp", "GitHub", "DNS", "gRPC", "ETL", "Unity", "RPU", "Shopify", "Cacoo", "ISO", "CSRF", "TDD", "PayPal", "TPU", "Graphviz", "Pidoco", "Eagle", "X11", "Twilio", "Cadence", "Hotjar", "Free3D", "Mermaid", "Magento", "IPS", "SAML", "GCP", "Docker", "SOIC", "VirtualBox", "HPU", "IaaS", "Marmoset", "QFN", "RudderStack", "PAL", "Chef", "IPU", "PCB", "Affirm", "Stripe", "Creately", "Podman", "CRL", "DipTrace", "TSSOP", "OmniGraffle", "Bugsnag", "Multisim", "DRY", "DDoS", "GraphQL", "Revit", "Kubernetes", "SOLID", "IDS", "CircleCI", "IDE", "SOAP", "Flinto", "Figma", "Principle", "Consul", "BI", "SQLi", "3dsMax", "Origami", "API", "Visio", "PaaS", "Square", "HotGloo", "LGA", "Adyen", "OAuth2", "Cinema4D", "Inventor", "Godot", "Lucidchart", "IoT", "TeamCity", "MPU", "Wayland", "Spinnaker", "Salesforce", "VMware", "Blender", "Rollbar", "APU", "OCSP"] : List String).map String.data

/-- The `non_tech` denylist of `extract_acronyms`. -/
def nonTechUpper : List Str :=
  (["NOT", "ONE", "GET", "HAS", "OUT", "WAY", "NOW", "HIS", "MEN", "DAY", "MAN", "OUR", "THE", "MAY", "ALL", "AND", "ARE", "OLD", "ITS", "TWO", "HIM", "HOW", "NEW", "BUT", "USE", "YOU", "HER", "WHO", "FOR", "SEE", "CAN", "WAS"] : List String).map String.data


/-! ### Dynamic term discoverer (`dynamic_extractor.py`) -/

/-- Match of `\b[A-Z][a-z]+(?:[A-Z][a-zA-Z]+)+\b` starting at `i`
(`extract_camel_case_terms`).  The greedy inner letter run is maximal, so the
repetition group runs exactly once over the remaining letters; any shorter end
would sit before a letter and fail the trailing `\b`. -/
def camelMatchAt (t : Str) (i : Nat) : Option Nat :=
  if (if i = 0 then false else wordAt t (i - 1)) then none
  else
    match charAt t i with
    | none => none
    | some c =>
      if c.isUpper then
        let n1 := runLen Char.isLower (t.drop (i + 1))
        if n1 = 0 then none
        else
          let j := i + 1 + n1
          match charAt t j with
          | none => none
          | some c2 =>
            if c2.isUpper then
              let n2 := runLen Char.isAlpha (t.drop (j + 1))
              if n2 = 0 then none
              else
                let e := j + 1 + n2
                if wordAt t e then none else some e
            else none
      else none

/-- Match of `\b[A-Z]{2,6}\b` starting at `i` (`extract_acronyms`): a maximal
uppercase run of length 2–6 with word boundaries on both sides. -/
def acronymMatchAt (t : Str) (i : Nat) : Option Nat :=
  if (if i = 0 then false else wordAt t (i - 1)) then none
  else
    let L := runLen Char.isUpper (t.drop i)
    if 2 ≤ L && L ≤ 6 then
      if wordAt t (i + L) then none else some (i + L)
    else none

/-- Match of `\b\.[A-Z][a-zA-Z]+(?:\.[A-Z][a-zA-Z]+)?\b` starting at `i`
(`extract_dot_notation_terms`).  The `\b` before the dot requires a word
character immediately before it.  The greedy optional second component is
tried first; on a failed trailing boundary the match falls back to the short
form, as regex backtracking does. -/
def dotMatchAt (t : Str) (i : Nat) : Option Nat :=
  if (if i = 0 then false else wordAt t (i - 1)) then
    if charAt t i = some '.' then
      match charAt t (i + 1) with
      | none => none
      | some c =>
        if c.isUpper then
          let n := runLen Char.isAlpha (t.drop (i + 2))
          if n = 0 then none
          else
            let j := i + 2 + n
            let ext : Option Nat :=
              if charAt t j = some '.' then
                match charAt t (j + 1) with
                | none => none
                | some c2 =>
                  if c2.isUpper then
                    let m := runLen Char.isAlpha (t.drop (j + 2))
                    if m = 0 then none
                    else
                      let e := j + 2 + m
                      if wordAt t e then none else some e
                  else none
              else none
            match ext with
            | some e => some e
            | none => if wordAt t j then none else some j
        else none
    else none
  else none

/-- Match of `\b([A-Z][a-zA-Z]+)\s+(\d+(?:\.\d+)?)\b` starting at `i`
(`extract_versioned_terms`); returns `(end of the name group, end of the whole
match)`. -/
def versionedMatchAt (t : Str) (i : Nat) : Option (Nat × Nat) :=
  if (if i = 0 then false else wordAt t (i - 1)) then none
  else
    match charAt t i with
    | none => none
    | some c =>
      if c.isUpper then
        let n := runLen Char.isAlpha (t.drop (i + 1))
        if n = 0 then none
        else
          let j := i + 1 + n
          let s := runLen isSpaceC (t.drop j)
          if s = 0 then none
          else
            let k := j + s
            let d := runLen Char.isDigit (t.drop k)
            if d = 0 then none
            else
              let e := k + d
              let ext : Option Nat :=
                if charAt t e = some '.' then
                  let d2 := runLen Char.isDigit (t.drop (e + 1))
                  if d2 = 0 then none
                  else
                    let e2 := e + 1 + d2
                    if wordAt t e2 then none else some e2
                else none
              match ext with
              | some e2 => some (j, e2)
              | none => if wordAt t e then none else some (j, e)
      else none

def verScanGo (t : Str) : Nat → Nat → List (Nat × Nat)
  | 0, _ => []
  | fuel + 1, i =>
    if i > t.length then []
    else
      match versionedMatchAt t i with
      | some (j, e) => (i, j) :: verScanGo t fuel (max e (i + 1))
      | none => verScanGo t fuel (i + 1)

/-- Python set iteration is modelled as first-occurrence order. -/
def dedupStr (l : List Str) : List Str := l.foldl setInsert []

/-- `extract_camel_case_terms`: matches longer than 3 characters, excluding
the two dictionary-covered spellings. -/
def camelTerms (t : Str) : List Str :=
  dedupStr (((patMatches camelMatchAt t).map (fun p => sliceL t p.1 p.2)).filter
    (fun m => decide (3 < m.length) &&
      !(decide (m = "JavaScript".data)) && !(decide (m = "TypeScript".data))))

/-- `extract_acronyms`: a match is kept when it is in the `tech_acronyms`
allowlist, or (being 2–6 characters) is not in the `non_tech` denylist. -/
def acronymTerms (t : Str) : List Str :=
  dedupStr (((patMatches acronymMatchAt t).map (fun p => sliceL t p.1 p.2)).filter
    (fun m =>
      if m ∈ techAcronymsAllow then true
      else if 2 ≤ m.length && m.length ≤ 6 then !(decide (m ∈ nonTechUpper))
      else false))

/-- `extract_dot_notation_terms`. -/
def dotTerms (t : Str) : List Str :=
  dedupStr ((patMatches dotMatchAt t).map (fun p => sliceL t p.1 p.2))

/-- `extract_versioned_terms` (keeps the name, drops the version). -/
def versionedTerms (t : Str) : List Str :=
  dedupStr ((verScanGo t (t.length + 1) 0).map (fun p => sliceL t p.1 p.2))

/-- `infer_category_from_context`. -/
def inferCategoryFromContext (term text : Str) : Str :=
  let textL := lowerS text
  let termL := lowerS term
  if (["test", "qa", "quality", "automation", "selenium", "playwright", "cypress",
        "appium", "reqnroll", "k6", "jmeter", "postman"].any
        (fun k => containsSub textL k.data)) &&
      (["test", "qa", "selenium", "playwright", "cypress", "appium", "junit", "pytest",
        "jest", "reqnroll", "k6", "jmeter", "postman", "xunit"].any
        (fun k => containsSub termL k.data)) then "testing".data
  else if (containsSub textL "framework".data || containsSub textL "library".data) &&
      (["react", "vue", "angular", "django", "spring", "express", "flask"].any
        (fun k => containsSub termL k.data)) then "framework".data
  else if ["AWS", "Azure", "GCP", "Google Cloud"].any (fun k => decide (term = k.data)) then
    "cloud".data
  else if ["Docker", "Kubernetes", "K8s", "Jenkins", "GitLab", "GitHub", "Pipeline"].any
      (fun k => decide (term = k.data)) then "devops".data
  else if containsSub termL "pipeline".data then "devops".data
  else if ["sql", "database", "db", "mongo", "redis", "postgres", "mysql"].any
      (fun k => containsSub termL k.data) then "data".data
  else if ["iOS", "Android", "Flutter", "React Native"].any (fun k => decide (term = k.data)) then
    "platform".data
  else "unknown".data

/-- `extract_dynamic_keywords`: the four extraction passes populating one
dictionary keyed by the lowercased term (later passes overwrite the value but
keep the key position). -/
def dynPhase (jd : Str) : List (Str × KwEntry) :=
  let k1 := (camelTerms jd).foldl
    (fun m term =>
      let count := countWordOcc jd term
      dictUpsert m (lowerS term) ⟨term, inferCategoryFromContext term jd, (count : ℚ), count⟩)
    []
  let k2 := (acronymTerms jd).foldl
    (fun m term =>
      let count := countWordOcc jd term
      dictUpsert m (lowerS term) ⟨term, inferCategoryFromContext term jd, (count : ℚ), count⟩)
    k1
  let k3 := (dotTerms jd).foldl
    (fun m term =>
      let count := countWordOcc jd term
      dictUpsert m (lowerS term) ⟨term, "framework".data, (count : ℚ) * (3 / 2), count⟩)
    k2
  (versionedTerms jd).foldl
    (fun m term =>
      let count := countWordOcc jd term
      let cat := inferCategoryFromContext term jd
      dictUpsert m (lowerS term)
        ⟨term, if cat = "unknown".data then "language".data else cat, (count : ℚ) * (6 / 5), count⟩)
    k3

def extractDynamicKeywords (jd : Str) : List KwEntry := (dynPhase jd).map (·.2)


/-! ### Merging, ordering, safety net and noise filter -/

/-- One iteration of the merge of a dynamically extracted keyword into
`keyword_scores`: an absent key is added; an existing key keeps the
dictionary term and category and takes the higher score (and the larger
count). -/
def mergeStep (m : List (Str × KwEntry)) (k : KwEntry) : List (Str × KwEntry) :=
  match alookup m (lowerS k.term) with
  | none => dictUpsert m (lowerS k.term) k
  | some old =>
    if old.score < k.score then
      dictUpsert m (lowerS k.term) ⟨old.term, old.category, k.score, max old.count k.count⟩
    else m

def mergeDynamic (scores : List (Str × KwEntry)) (dyn : List KwEntry) :
    List (Str × KwEntry) :=
  dyn.foldl mergeStep scores

/-- Computable floor of a rational. -/
def ratFloor (q : ℚ) : ℤ := q.num / q.den

/-- Python `round` (round half to even) of a rational to an integer. -/
def roundHalfEven (q : ℚ) : ℤ :=
  if q - ratFloor q < 1 / 2 then ratFloor q
  else if (1 : ℚ) / 2 < q - ratFloor q then ratFloor q + 1
  else if ratFloor q % 2 = 0 then ratFloor q else ratFloor q + 1

/-- `round(x, 2)`. -/
def round2 (q : ℚ) : ℚ := (roundHalfEven (q * 100) : ℚ) / 100

/-- Stable insertion for the descending sort: a later element passes every
earlier element of equal or larger score, as `sorted(..., reverse=True)`
keeps equal elements in their original order. -/
def insDesc (x : KwEntry) : List KwEntry → List KwEntry
  | [] => [x]
  | y :: ys => if y.score < x.score then x :: y :: ys else y :: insDesc x ys

/-- `sorted(keyword_scores.values(), key=lambda x: x["score"], reverse=True)`. -/
def sortByScoreDesc (l : List KwEntry) : List KwEntry :=
  l.foldl (fun acc x => insDesc x acc) []

/-- Python string comparison (lexicographic on code points). -/
def ltStr : Str → Str → Bool
  | [], [] => false
  | [], _ :: _ => true
  | _ :: _, [] => false
  | a :: xs, b :: ys =>
    if a.toNat < b.toNat then true
    else if b.toNat < a.toNat then false
    else ltStr xs ys

def insStr (x : Str) : List Str → List Str
  | [] => [x]
  | y :: ys => if ltStr x y then x :: y :: ys else y :: insStr x ys

/-- Python `sorted` on a list of strings. -/
def sortStr (l : List Str) : List Str := l.foldl (fun acc x => insStr x acc) []

/-- The `intersection = must_have_terms & nice_to_have_terms` computed by the
safety net. -/
def safetyInter (must nice : List Str) : List Str :=
  must.filter (fun t => decide (t ∈ nice))

/-- One pass of the safety-net loop for one duplicated term. -/
def safetyStep (text : Str) (mn : List Str × List Str) (term : Str) :
    List Str × List Str :=
  if (findKeywordPositions text term).any (fun p => isInBonusExperienceSection text p.1) then
    (mn.1.filter (fun x => decide (x ≠ term)), mn.2)
  else (mn.1, mn.2.filter (fun x => decide (x ≠ term)))

def safetyFold (text : Str) (must nice : List Str) : List Str × List Str :=
  (safetyInter must nice).foldl (safetyStep text) (must, nice)

/-- The de-duplication safety net of `extract_keywords`: every term of the
intersection is removed from `must_have_terms` when some occurrence of its
canonical spelling lies in a bonus-experience region and from
`nice_to_have_terms` otherwise; afterwards
`nice_to_have_terms = nice_to_have_terms - must_have_terms`. -/
def resolveSets (text : Str) (must nice : List Str) : List Str × List Str :=
  ((safetyFold text must nice).1,
    (safetyFold text must nice).2.filter (fun t => decide (t ∉ (safetyFold text must nice).1)))

/-- Python `str.strip()`. -/
def stripL (s : Str) : Str :=
  ((s.dropWhile isSpaceC).reverse.dropWhile isSpaceC).reverse

/-- A date shape `\d{a,b}SEP\d{c,d}SEP\d{e,f}` anchored at both ends (the
`date_patterns` of `should_filter_keyword`, via `re.match` and `$`). -/
def segDate (t : Str) (lo1 hi1 lo2 hi2 lo3 hi3 : Nat) (sepOk : Char → Bool) : Bool :=
  let r1 := runLen Char.isDigit t
  if r1 < lo1 || hi1 < r1 then false
  else
    match charAt t r1 with
    | none => false
    | some c1 =>
      sepOk c1 &&
        (let rest1 := t.drop (r1 + 1)
         let r2 := runLen Char.isDigit rest1
         if r2 < lo2 || hi2 < r2 then false
         else
           match charAt rest1 r2 with
           | none => false
           | some c2 =>
             sepOk c2 &&
               (let rest2 := rest1.drop (r2 + 1)
                let r3 := runLen Char.isDigit rest2
                decide (lo3 ≤ r3) && decide (r3 ≤ hi3) && decide (rest2.length = r3)))

def slashDash (c : Char) : Bool := c = '/' || c = '-'

/-- `should_filter_keyword` (defined inside `extract_keywords`). -/
def shouldFilterKeyword (term : Str) : Bool :=
  if term = [] || (stripL term).length = 0 then true
  else
    let tl := lowerS (stripL term)
    if tl ∈ commonKeywordsToFilter then true
    else if upperS (stripL term) ∈ commonKeywordsToFilter || tl ∈ commonKeywordsToFilter then
      true
    else if commonKeywordsToFilter.any
        (fun ft => decide (tl = ft) ||
          (decide (tl.length ≤ ft.length + 3) && containsSub tl ft)) then true
    else if tl.length ≤ 3 && !(decide (tl ∈ techShortAcronyms)) &&
        decide (tl ∈ commonShortTerms) then true
    else if tl.length < 2 then true
    else if !(decide (tl = [])) && tl.all Char.isDigit then true
    else if !(decide (term = [])) && term.all Char.isDigit && term.length = 4 &&
        decide (1900 ≤ natOfDigits term) && decide (natOfDigits term ≤ 2100) then true
    else if tl ∈ monthNames then true
    else if segDate term 1 2 1 2 2 4 slashDash || segDate term 4 4 1 2 1 2 slashDash ||
        segDate term 1 2 1 2 2 4 (fun c => c = '.') then true
    else false

/-! ### Structured field extractors (`keyword_extractor.py`) -/

/-- `(value, end)` of a `(\d+)` group starting at `i`. -/
def digitsAt (t : Str) (i : Nat) : Option (Nat × Nat) :=
  let n := runLen Char.isDigit (t.drop i)
  if n = 0 then none else some (natOfDigits (sliceL t i (i + n)), i + n)

def optPlus (t : Str) (i : Nat) : Nat := if charAt t i = some '+' then i + 1 else i

def optS (t : Str) (i : Nat) : Nat := if charAt t i = some 's' then i + 1 else i

def wsStar (t : Str) (i : Nat) : Nat := i + runLen isSpaceC (t.drop i)

def wsPlus (t : Str) (i : Nat) : Option Nat :=
  let n := runLen isSpaceC (t.drop i)
  if n = 0 then none else some (i + n)

def litP (t : Str) (s : String) (i : Nat) : Option Nat :=
  if litAt t s.data i then some (i + s.data.length) else none

/-- `of?\s+experience` tail shared by the experience patterns. -/
def ofExperienceAt (t : Str) (i : Nat) : Option Nat :=
  match litP t "o" i with
  | none => none
  | some j =>
    let j := if charAt t j = some 'f' then j + 1 else j
    match wsPlus t j with
    | none => none
    | some j => litP t "experience" j

/-- `(\d+)\+?\s*years?` (the `(\d+)\+?\s*yrs?` variant via `unit`); returns
`(value, end)`. -/
def numYearsAt (t : Str) (unit : String) (i : Nat) : Option (Nat × Nat) :=
  match digitsAt t i with
  | none => none
  | some (v, j) =>
    let j := wsStar t (optPlus t j)
    match litP t unit j with
    | none => none
    | some j => some (v, optS t j)

/-- `(\d+)\+?\s*years?\s+of?\s+experience`. -/
def yearsP1At (t : Str) (i : Nat) : Option (Nat × Nat) :=
  match numYearsAt t "year" i with
  | none => none
  | some (v, j) =>
    match wsPlus t j with
    | none => none
    | some j => (ofExperienceAt t j).map (fun e => (v, e))

/-- `(\d+)\+?\s*yrs?\s+of?\s+experience`. -/
def yearsP2At (t : Str) (i : Nat) : Option (Nat × Nat) :=
  match numYearsAt t "yr" i with
  | none => none
  | some (v, j) =>
    match wsPlus t j with
    | none => none
    | some j => (ofExperienceAt t j).map (fun e => (v, e))

/-- `experience.*?(\d+)\+?\s*years?` — the lazy gap takes the earliest
newline-free extension at which the numeric tail matches. -/
def yearsP3At (t : Str) (i : Nat) : Option (Nat × Nat) :=
  match litP t "experience" i with
  | none => none
  | some j0 =>
    match ((List.range (t.length + 1)).filter (fun j =>
        decide (j0 ≤ j) && (sliceL t j0 j).all (fun c => c != '\n') &&
          (numYearsAt t "year" j).isSome)).head? with
    | none => none
    | some j => numYearsAt t "year" j

/-- `(\d+)\+?\s*years?\s+experience`. -/
def yearsP4At (t : Str) (i : Nat) : Option (Nat × Nat) :=
  match numYearsAt t "year" i with
  | none => none
  | some (v, j) =>
    match wsPlus t j with
    | none => none
    | some j => (litP t "experience" j).map (fun e => (v, e))

/-- `minimum\s+of\s+(\d+)\s*years?`. -/
def yearsP5At (t : Str) (i : Nat) : Option (Nat × Nat) :=
  match litP t "minimum" i with
  | none => none
  | some j =>
    match wsPlus t j with
    | none => none
    | some j =>
      match litP t "of" j with
      | none => none
      | some j =>
        match wsPlus t j with
        | none => none
        | some j =>
          match digitsAt t j with
          | none => none
          | some (v, j) =>
            let j := wsStar t j
            match litP t "year" j with
            | none => none
            | some j => some (v, optS t j)

/-- `at\s+least\s+(\d+)\s*years?`. -/
def yearsP6At (t : Str) (i : Nat) : Option (Nat × Nat) :=
  match litP t "at" i with
  | none => none
  | some j =>
    match wsPlus t j with
    | none => none
    | some j =>
      match litP t "least" j with
      | none => none
      | some j =>
        match wsPlus t j with
        | none => none
        | some j =>
          match digitsAt t j with
          | none => none
          | some (v, j) =>
            let j := wsStar t j
            match litP t "year" j with
            | none => none
            | some j => some (v, optS t j)

/-- `(\d+)\+?\s*years?\s+in`. -/
def yearsP7At (t : Str) (i : Nat) : Option (Nat × Nat) :=
  match numYearsAt t "year" i with
  | none => none
  | some (v, j) =>
    match wsPlus t j with
    | none => none
    | some j => (litP t "in" j).map (fun e => (v, e))

/-- `(\d+)\+?\s*years?\s+working`. -/
def yearsP8At (t : Str) (i : Nat) : Option (Nat × Nat) :=
  match numYearsAt t "year" i with
  | none => none
  | some (v, j) =>
    match wsPlus t j with
    | none => none
    | some j => (litP t "working" j).map (fun e => (v, e))

def valScanGo (m : Str → Nat → Option (Nat × Nat)) (t : Str) : Nat → Nat → List Nat
  | 0, _ => []
  | fuel + 1, i =>
    if i > t.length then []
    else
      match m t i with
      | some (v, e) => v :: valScanGo m t fuel (max e (i + 1))
      | none => valScanGo m t fuel (i + 1)

/-- Captured values of all non-overlapping matches of a numeric pattern
(`re.finditer` plus `int(match.group(1))`). -/
def valMatches (m : Str → Nat → Option (Nat × Nat)) (t : Str) : List Nat :=
  valScanGo m t (t.length + 1) 0

/-- `extract_years_required`: maximum captured value over the eight
`EXPERIENCE_PATTERNS`, or `none`. -/
def extractYearsRequired (text : Str) : Option Nat :=
  let tl := lowerS text
  let found :=
    [yearsP1At, yearsP2At, yearsP3At, yearsP4At, yearsP5At, yearsP6At, yearsP7At,
      yearsP8At].foldl (fun acc m => acc ++ valMatches m tl) []
  match found with
  | [] => none
  | v :: vs => some (vs.foldl Nat.max v)

/-- Apostrophe character (for the possessive degree keywords). -/
def apos : Char := Char.ofNat 39

/-- `DEGREE_KEYWORDS["bachelor"]`. -/
def bachelorKws : List Str :=
  ["bachelor".data, "bachelor".data ++ [apos] ++ "s".data, "bs".data, "b.sc".data,
    "ba".data, "b.a".data]

/-- `DEGREE_KEYWORDS["master"]`. -/
def masterKws : List Str :=
  ["master".data, "master".data ++ [apos] ++ "s".data, "ms".data, "m.sc".data,
    "ma".data, "m.a".data, "mba".data]

/-- `DEGREE_KEYWORDS["phd"]`. -/
def phdKws : List Str := ["phd".data, "ph.d".data, "doctorate".data, "doctoral".data]

/-- `DEGREE_KEYWORDS["associate"]`. -/
def associateKws : List Str := ["associate".data, "a.a".data, "a.s".data]

/-- `re.search(r'\b' + re.escape(kw) + r'\b', tl)` succeeds somewhere. -/
def wbFound (tl kw : Str) : Bool :=
  patFound (pThen pBnd (pThen (pLitL kw) pBnd)) tl

/-- Leftmost match position of `\b` + keyword (no trailing boundary), case
insensitively, in the original text — the head of the field-extraction
pattern of `extract_degree_required`, whose remaining pieces all match the
empty string. -/
def bndKwFirst (text kw : Str) : Option Nat :=
  ((List.range (text.length + 1)).filter (fun i =>
    boundaryAt text i && litAt (lowerS text) (lowerS kw) i)).head?

/-- The tail `[^\n]*?(?:degree|in|of)?\s*([A-Z][a-zA-Z\s]+)?` of the degree
field pattern, evaluated at the position right after the keyword: the lazy gap
matches empty (everything after it is optional), the optional literal is tried
in alternation order, whitespace is consumed greedily, and the capture (with
`re.IGNORECASE`, `[A-Z]` is any letter) is the maximal letters-and-whitespace
run of length at least 2. -/
def degreeField (text : Str) (j : Nat) : Option Str :=
  let tl := lowerS text
  let j1 :=
    match litP tl "degree" j with
    | some k => k
    | none =>
      match litP tl "in" j with
      | some k => k
      | none =>
        match litP tl "of" j with
        | some k => k
        | none => j
  let j2 := wsStar text j1
  match charAt text j2 with
  | none => none
  | some c =>
    if c.isAlpha then
      let n := runLen (fun d => d.isAlpha || isSpaceC d) (text.drop (j2 + 1))
      if n = 0 then none else some (sliceL text j2 (j2 + 1 + n))
    else none

/-- One degree-type iteration of `extract_degree_required`: the first keyword
of the group found (with word boundaries) in the lowercased text triggers the
field extraction and an early return. -/
def degreeAttempt (text tl : Str) (title : Str) (kws : List Str) : Option Str :=
  match kws.find? (fun kw => wbFound tl kw) with
  | none => none
  | some kw =>
    some
      (match bndKwFirst text kw with
       | none => title
       | some i =>
         match degreeField text (i + kw.length) with
         | some g =>
           let f := stripL g
           if 2 < f.length then title ++ " in ".data ++ f else title
         | none => title)

/-- `extract_degree_required`: the degree groups are tried in the insertion
order of the `DEGREE_KEYWORDS` dictionary — bachelor, master, phd, associate. -/
def extractDegreeRequired (text : Str) : Option Str :=
  match degreeAttempt text (lowerS text) "Bachelor".data bachelorKws with
  | some r => some r
  | none =>
    match degreeAttempt text (lowerS text) "Master".data masterKws with
    | some r => some r
    | none =>
      match degreeAttempt text (lowerS text) "Phd".data phdKws with
      | some r => some r
      | none => degreeAttempt text (lowerS text) "Associate".data associateKws

/-- `extract_certifications`: case-insensitive boundary match of every entry
of `CERTIFICATIONS`; `list(set(...))` is modelled as order-preserving
de-duplication (the entries are pairwise distinct). -/
def extractCertifications (text : Str) : List Str :=
  let tl := lowerS text
  dedupStr (certificationsList.filter (fun cert => wbFound tl (lowerS cert)))

/-! ### `extract_keywords` -/

/-- The dictionary returned by `extract_keywords`. -/
structure ExtractResult where
  keywords : List KwEntry
  mustHave : List Str
  niceToHave : List Str
  yearsRequired : Option Nat
  degreeRequired : Option Str
  certifications : List Str
deriving DecidableEq

/-- The full `keywords` list before the noise filter: dictionary matches
merged with dynamic matches, sorted by score descending (stable), scores
rounded to two decimals. -/
def keywordsAll (skills : List Skill) (text : Str) : List KwEntry :=
  let merged := mergeDynamic (dictPhase skills text).scores (extractDynamicKeywords text)
  (sortByScoreDesc (merged.map (·.2))).map (fun v => ⟨v.term, v.category, round2 v.score, v.count⟩)

/-- `extract_keywords(jd_text)` for a given skill dictionary. -/
def extractKeywords (skills : List Skill) (text : Str) : ExtractResult :=
  let ph := dictPhase skills text
  let resolved := resolveSets text ph.must ph.nice
  ⟨(keywordsAll skills text).filter (fun kw => !shouldFilterKeyword kw.term),
    sortStr (resolved.1.filter (fun t => !shouldFilterKeyword t)),
    sortStr (resolved.2.filter (fun t => !shouldFilterKeyword t)),
    extractYearsRequired text,
    extractDegreeRequired text,
    extractCertifications text⟩

/-! ### Role/seniority inference (`role_inferrer.py`) -/

/-- The `Seniority` enumeration of `models.py`. -/
inductive Seniority where
  | junior
  | mid
  | senior
  | staff
  | principal
  | lead
  | manager
  | architect
  | graduate
  | unknown
deriving DecidableEq

/-- `any(keyword in hay for keyword in needles)`. -/
def containsAny (hay : Str) (needles : List String) : Bool :=
  needles.any (fun n => containsSub hay n.data)

/-- `minimum\s+of\s+(\d+)\+?\s*years?` (the `infer_seniority` variant carries
the optional plus). -/
def senMinimumAt (t : Str) (i : Nat) : Option (Nat × Nat) :=
  match litP t "minimum" i with
  | none => none
  | some j =>
    match wsPlus t j with
    | none => none
    | some j =>
      match litP t "of" j with
      | none => none
      | some j =>
        match wsPlus t j with
        | none => none
        | some j =>
          match digitsAt t j with
          | none => none
          | some (v, j) =>
            let j := wsStar t (optPlus t j)
            match litP t "year" j with
            | none => none
            | some j => some (v, optS t j)

/-- `at\s+least\s+(\d+)\+?\s*years?` (with the optional plus). -/
def senAtLeastAt (t : Str) (i : Nat) : Option (Nat × Nat) :=
  match litP t "at" i with
  | none => none
  | some j =>
    match wsPlus t j with
    | none => none
    | some j =>
      match litP t "least" j with
      | none => none
      | some j =>
        match wsPlus t j with
        | none => none
        | some j =>
          match digitsAt t j with
          | none => none
          | some (v, j) =>
            let j := wsStar t (optPlus t j)
            match litP t "year" j with
            | none => none
            | some j => some (v, optS t j)

/-- `(\d+)[-–]\s*(\d+)\s*years?` — the two-group range pattern; the captured
value is `max(min_years, max_years)` as taken by `infer_seniority`. -/
def senRangeAt (t : Str) (i : Nat) : Option (Nat × Nat) :=
  match digitsAt t i with
  | none => none
  | some (v1, j) =>
    match charAt t j with
    | none => none
    | some c =>
      if c = '-' || c.toNat = 0x2013 then
        match digitsAt t (wsStar t (j + 1)) with
        | none => none
        | some (v2, k) =>
          let k := wsStar t k
          match litP t "year" k with
          | none => none
          | some k => some (max v1 v2, optS t k)
      else none

/-- The `found_years` collection of `infer_seniority` (six patterns). -/
def seniorityFoundYears (jdL : Str) : List Nat :=
  [yearsP1At, yearsP2At, senMinimumAt, senAtLeastAt, yearsP4At, senRangeAt].foldl
    (fun acc m => acc ++ valMatches m jdL) []

/-- The `less_than_2_years_patterns`. -/
def lessThan2Found (jdL : Str) : Bool :=
  patFound (pThen (pLit "less") (pThen pWs1 (pThen (pLit "than") (pThen pWs1
    (pThen (pLit "2") (pThen pWs (pThen (pLit "year") (pOpt (pLit "s"))))))))) jdL ||
  patFound (pThen (pLit "under") (pThen pWs1 (pThen (pLit "2")
    (pThen pWs (pThen (pLit "year") (pOpt (pLit "s"))))))) jdL ||
  patFound (pThen (pLit "<2") (pThen pWs (pThen (pLit "year") (pOpt (pLit "s"))))) jdL ||
  patFound (pThen pBnd (pThen (pLit "0") (pThen pWs (pThen (pLit "year")
    (pThen (pOpt (pLit "s")) pBnd))))) jdL ||
  patFound (pThen pBnd (pThen (pLit "1") (pThen pWs1 (pThen (pLit "year") pBnd)))) jdL

/-- `(\d+)\s*[-–]\s*(\d+)\s*years?` (the whitespace-tolerant range re-check);
captures `(min, max)`. -/
def senRange2At (t : Str) (i : Nat) : Option ((Nat × Nat) × Nat) :=
  match digitsAt t i with
  | none => none
  | some (v1, j) =>
    let j := wsStar t j
    match charAt t j with
    | none => none
    | some c =>
      if c = '-' || c.toNat = 0x2013 then
        match digitsAt t (wsStar t (j + 1)) with
        | none => none
        | some (v2, k) =>
          let k := wsStar t k
          match litP t "year" k with
          | none => none
          | some k => some ((v1, v2), optS t k)
      else none

def senRange2Go (t : Str) : Nat → Nat → List (Nat × Nat)
  | 0, _ => []
  | fuel + 1, i =>
    if i > t.length then []
    else
      match senRange2At t i with
      | some (v, e) => v :: senRange2Go t fuel (max e (i + 1))
      | none => senRange2Go t fuel (i + 1)

/-- Some whitespace-tolerant range match has a maximum below 2 years. -/
def rangeJuniorFound (jdL : Str) : Bool :=
  (senRange2Go jdL (jdL.length + 1) 0).any (fun p => decide (p.2 < 2))

/-- `(?:engineer|developer|programmer|analyst|designer|tester|specialist|role|position|job)`. -/
def rolesAlt : Pat :=
  pOr (pLit "engineer") (pOr (pLit "developer") (pOr (pLit "programmer")
    (pOr (pLit "analyst") (pOr (pLit "designer") (pOr (pLit "tester")
      (pOr (pLit "specialist") (pOr (pLit "role") (pOr (pLit "position") (pLit "job")))))))))

/-- The four `graduate_patterns` of `infer_seniority`. -/
def gradPatternsFound (jdL : Str) : Bool :=
  anyFound
    [ pThen pBnd (pThen (pLit "graduate") (pThen pWs1 rolesAlt)),
      pThen pBnd (pThen (pLit "grad") (pThen pWs1 rolesAlt)),
      pThen
        (pOr (pThen (pLit "looking") (pThen pWs1 (pLit "for")))
          (pOr (pLit "seeking") (pOr (pLit "hiring") (pLit "recruiting"))))
        (pThen pWs1 (pThen (pOpt (pThen (pLit "a") pWs1))
          (pThen (pLit "graduate") (pThen pWs1 rolesAlt)))),
      pThen (pLit "graduate") (pThen pWs1 (pThen (pOr (pLit "or") (pLit "/"))
        (pThen pWs1 (pOr (pLit "junior") (pLit "entry"))))) ]
    jdL

/-- The trailing JD-text checks of `infer_seniority` (after the years logic). -/
def seniorityFromJd (jdL : Str) : Seniority :=
  if lessThan2Found jdL then .junior
  else if rangeJuniorFound jdL then .junior
  else if gradPatternsFound jdL then .graduate
  else if containsAny jdL
      ["senior", "sr.", "sr ", "experienced", "5+ years", "5 years", "6+ years",
        "7+ years", "8+ years"] then .senior
  else if containsAny jdL
      ["mid", "middle", "intermediate", "3+ years", "3 years", "4 years", "4+ years"] then
    .mid
  else .unknown

/-- `infer_seniority(title, jd_text)` (always returns a value; the source's
last line returns `Seniority.UNKNOWN`). -/
def inferSeniority (title jdText : Str) : Seniority :=
  let text := lowerS (title ++ (' ' :: jdText))
  let titleL := lowerS title
  let isAssistant := containsAny text ["assistant", "coordinator", "intern", "trainee"]
  if containsSub titleL "architect".data then .architect
  else if containsSub titleL "manager".data then .manager
  else if containsSub titleL "lead".data then .lead
  else if containsAny titleL ["principal", "distinguished", "fellow"] && !isAssistant then
    .principal
  else if containsAny titleL ["head of", "director"] && !isAssistant then .lead
  else if containsAny titleL ["staff", "senior staff"] && !isAssistant then .staff
  else if patFound (pWord "graduate") titleL || patFound (pWord "grad") titleL then .graduate
  else if containsAny titleL ["senior", "sr.", "sr "] then .senior
  else if containsAny titleL ["mid", "middle", "intermediate"] then .mid
  else if containsAny titleL ["junior", "jr.", "jr ", "entry", "intern"] then .junior
  else
    let jdL := lowerS jdText
    match seniorityFoundYears jdL with
    | v :: vs =>
      let maxYears := vs.foldl Nat.max v
      if 5 ≤ maxYears then .senior
      else if 3 ≤ maxYears then .mid
      else if maxYears < 2 then .junior
      else seniorityFromJd jdL
    | [] => seniorityFromJd jdL

/-! ### Posted-date extraction (`date_extractor.py`) -/

def isLeap (y : Nat) : Bool := (y % 4 = 0 && y % 100 ≠ 0) || y % 400 = 0

def daysInMonth (y m : Nat) : Nat :=
  if m = 2 then (if isLeap y then 29 else 28)
  else if m = 4 || m = 6 || m = 9 || m = 11 then 30
  else 31

/-- Civil date to day number (days from the civil epoch 1970-01-01,
Hinnant's `days_from_civil`). -/
def toDayNumber (y m d : Nat) : Int :=
  let yy := if m ≤ 2 then y - 1 else y
  let era := yy / 400
  let yoe := yy % 400
  let mp := (m + 9) % 12
  let doy := (153 * mp + 2) / 5 + (d - 1)
  let doe := yoe * 365 + yoe / 4 - yoe / 100 + doy
  (era * 146097 + doe : Int) - 719468

/-- `datetime(year, month, day)`: valid dates only (`ValueError` otherwise). -/
def mkDatetime (y m d : Nat) : Option Int :=
  if 1 ≤ y && y ≤ 9999 && 1 ≤ m && m ≤ 12 && 1 ≤ d && d ≤ daysInMonth y m then
    some (toDayNumber y m d)
  else none

/-- One relative pattern `(\d+)\s*UNIT\s*ago` (optionally pluralised),
capturing the delta in days. -/
def relAt (unit : String) (plural : Bool) (mult : Nat) (t : Str) (i : Nat) :
    Option (Nat × Nat) :=
  match digitsAt t i with
  | none => none
  | some (v, j) =>
    let j := wsStar t j
    match litP t unit j with
    | none => none
    | some j =>
      let j := if plural then optS t j else j
      let j := wsStar t j
      (litP t "ago" j).map (fun e => (v * mult, e))

/-- The twelve `relative_patterns` of `parse_posted_date`, tried in order;
the first pattern with a match anywhere yields its leftmost capture. -/
def relativeDelta (s : Str) : Option Nat :=
  let sl := lowerS s
  [ relAt "d" false 1, relAt "day" false 1, relAt "day" true 1,
    relAt "w" false 7, relAt "week" false 7, relAt "week" true 7,
    relAt "m" false 30, relAt "month" false 30, relAt "month" true 30,
    relAt "y" false 365, relAt "year" false 365, relAt "year" true 365 ].foldl
    (fun acc m => acc <|> (valMatches m sl).head?) none

/-- Leftmost match value of a capturing matcher (`re.search`). -/
def firstCap {α : Type} (m : Str → Nat → Option (α × Nat)) (t : Str) : Option α :=
  ((List.range (t.length + 1)).filterMap (fun i => (m t i).map (·.1))).head?

/-- `(\d{4})[slash or dash](\d{1,2})[slash or dash](\d{1,2})` capturing `(year, month, day)`. -/
def absP1At (t : Str) (i : Nat) : Option ((Nat × Nat × Nat) × Nat) :=
  if runLen Char.isDigit (t.drop i) < 4 then none
  else
    let y := natOfDigits (sliceL t i (i + 4))
    match charAt t (i + 4) with
    | none => none
    | some c1 =>
      if slashDash c1 then
        let r2 := runLen Char.isDigit (t.drop (i + 5))
        if r2 = 0 then none
        else
          let k2 := min r2 2
          let mo := natOfDigits (sliceL t (i + 5) (i + 5 + k2))
          match charAt t (i + 5 + k2) with
          | none => none
          | some c2 =>
            if slashDash c2 then
              let p3 := i + 5 + k2 + 1
              let r3 := runLen Char.isDigit (t.drop p3)
              if r3 = 0 then none
              else
                let k3 := min r3 2
                some ((y, mo, natOfDigits (sliceL t p3 (p3 + k3))), p3 + k3)
            else none
      else none

/-- `(\d{1,2})[slash or dash](\d{1,2})[slash or dash](\d{2,4})` capturing `(day, month, raw year
digits with their length)`. -/
def absP2At (t : Str) (i : Nat) : Option ((Nat × Nat × Nat × Nat) × Nat) :=
  let r1 := runLen Char.isDigit (t.drop i)
  if r1 = 0 then none
  else
    let k1 := min r1 2
    let da := natOfDigits (sliceL t i (i + k1))
    match charAt t (i + k1) with
    | none => none
    | some c1 =>
      if slashDash c1 then
        let p2 := i + k1 + 1
        let r2 := runLen Char.isDigit (t.drop p2)
        if r2 = 0 then none
        else
          let k2 := min r2 2
          let mo := natOfDigits (sliceL t p2 (p2 + k2))
          match charAt t (p2 + k2) with
          | none => none
          | some c2 =>
            if slashDash c2 then
              let p3 := p2 + k2 + 1
              let r3 := runLen Char.isDigit (t.drop p3)
              if r3 < 2 then none
              else
                let k3 := min r3 4
                some ((da, mo, natOfDigits (sliceL t p3 (p3 + k3)), k3), p3 + k3)
            else none
      else none

/-- `(\d{1,2})\s+(\w+)\s+(\d{4})` capturing `(day, month word, year)`. -/
def absP3At (t : Str) (i : Nat) : Option ((Nat × Str × Nat) × Nat) :=
  let r1 := runLen Char.isDigit (t.drop i)
  if r1 = 0 then none
  else
    let k1 := min r1 2
    let da := natOfDigits (sliceL t i (i + k1))
    match wsPlus t (i + k1) with
    | none => none
    | some j =>
      let w := runLen isWordChar (t.drop j)
      if w = 0 then none
      else
        let monthWord := sliceL t j (j + w)
        match wsPlus t (j + w) with
        | none => none
        | some k =>
          if runLen Char.isDigit (t.drop k) < 4 then none
          else some ((da, monthWord, natOfDigits (sliceL t k (k + 4))), k + 4)

/-- The `month_map` of `_parse_month_day_year`. -/
def monthNum (w : Str) : Option Nat :=
  let wl := lowerS w
  ([("january", 1), ("jan", 1), ("february", 2), ("feb", 2), ("march", 3), ("mar", 3),
    ("april", 4), ("apr", 4), ("may", 5), ("june", 6), ("jun", 6), ("july", 7),
    ("jul", 7), ("august", 8), ("aug", 8), ("september", 9), ("sep", 9), ("sept", 9),
    ("october", 10), ("oct", 10), ("november", 11), ("nov", 11), ("december", 12),
    ("dec", 12)] : List (String × Nat)).findSome?
    (fun p => if wl = p.1.data then some p.2 else none)

/-- `_parse_month_day_year`. -/
def monthDayYear (d : Nat) (w : Str) (y : Nat) : Option Int :=
  (monthNum w).bind (fun mn => mkDatetime y mn d)

/-- `parse_posted_date(date_text)` with the explicit `now` day number standing
for `datetime.utcnow()`.  Relative patterns are tried before absolute ones;
an invalid numeric date moves on to the next absolute pattern, and the
month-name pattern returns the (possibly empty) result of the month lookup. -/
def parsePostedDate (now : Int) (dateText : Str) : Option Int :=
  if dateText = [] then none
  else
    let s := stripL dateText
    match relativeDelta s with
    | some d => some (now - d)
    | none =>
      match
        (match firstCap absP1At s with
         | some (y, mo, da) => mkDatetime y mo da
         | none => none) with
      | some v => some v
      | none =>
        match
          (match firstCap absP2At s with
           | some (da, mo, yRaw, yLen) =>
             mkDatetime (if yLen = 4 then yRaw else 2000 + yRaw) mo da
           | none => none) with
        | some v => some v
        | none =>
          match firstCap absP3At s with
          | some (da, w, y) => monthDayYear da w y
          | none => none

/-- Python `text.split('\n')`. -/
def splitLinesGo (acc : Str) : Str → List Str
  | [] => [acc.reverse]
  | c :: cs => if c = '\n' then acc.reverse :: splitLinesGo [] cs else splitLinesGo (c :: acc) cs

def splitLines (s : Str) : List Str := splitLinesGo [] s

/-- Seek pattern `posted\s+(\d+\s*[dwmyh])\s*ago` (whole-match end). -/
def seekP1At (t : Str) (i : Nat) : Option Nat :=
  match litP t "posted" i with
  | none => none
  | some j =>
    match wsPlus t j with
    | none => none
    | some j =>
      match digitsAt t j with
      | none => none
      | some (_, j) =>
        let j := wsStar t j
        match charAt t j with
        | none => none
        | some c =>
          if c = 'd' || c = 'w' || c = 'm' || c = 'y' || c = 'h' then
            litP t "ago" (wsStar t (j + 1))
          else none

/-- Seek pattern
`posted\s+(\d+\s*(?:day|days|week|weeks|month|months|hour|hours|minute|minutes))\s*ago`;
the alternatives are tried in order and an alternative is kept only when the
`\s*ago` continuation succeeds, as regex backtracking does. -/
def seekP2At (t : Str) (i : Nat) : Option Nat :=
  match litP t "posted" i with
  | none => none
  | some j =>
    match wsPlus t j with
    | none => none
    | some j =>
      match digitsAt t j with
      | none => none
      | some (_, j) =>
        let j := wsStar t j
        (["day", "days", "week", "weeks", "month", "months", "hour", "hours",
          "minute", "minutes"] : List String).findSome?
          (fun u => (litP t u j).bind (fun k => litP t "ago" (wsStar t k)))

/-- `\d{1,2}[slash or dash]\d{1,2}[slash or dash]\d{2,4}` (end position). -/
def dateSegAt (t : Str) (i : Nat) : Option Nat :=
  (absP2At t i).map (·.2)

/-- `posted\s+(\d{1,2}[slash or dash]\d{1,2}[slash or dash]\d{2,4})`: `(group start, group end)`. -/
def postedNumDateAt (t : Str) (i : Nat) : Option (Nat × Nat) :=
  match litP t "posted" i with
  | none => none
  | some j =>
    match wsPlus t j with
    | none => none
    | some j => (dateSegAt t j).map (fun e => (j, e))

/-- `posted\s+(\d{1,2}\s+\w+\s+\d{4})`: `(group start, group end)`. -/
def postedWordDateAt (t : Str) (i : Nat) : Option (Nat × Nat) :=
  match litP t "posted" i with
  | none => none
  | some j =>
    match wsPlus t j with
    | none => none
    | some j => (absP3At t j).map (fun p => (j, p.2))


def capScanGo (m : Str → Nat → Option (Nat × Nat)) (t : Str) : Nat → Nat → List (Nat × Nat)
  | 0, _ => []
  | fuel + 1, i =>
    if i > t.length then []
    else
      match m t i with
      | some (g, e) => (g, e) :: capScanGo m t fuel (max e (i + 1))
      | none => capScanGo m t fuel (i + 1)

/-- One of the final `date_patterns` passes of `extract_posted_date_from_text`:
iterate the matches, parse each captured group, return the first parse. -/
def capStage (now : Int) (text tl : Str) (m : Str → Nat → Option (Nat × Nat)) :
    Option Int :=
  ((capScanGo m tl (tl.length + 1) 0).filterMap
    (fun p => parsePostedDate now (sliceL text p.1 p.2))).head?

/-- `extract_posted_date_from_text(text)`: Seek-style phrases first, then any
line containing "posted", then the generic date patterns. -/
def extractPostedDateFromText (now : Int) (text : Str) : Option Int :=
  if text = [] then none
  else
    let tl := lowerS text
    match ((patMatches seekP1At tl).filterMap
        (fun p => parsePostedDate now (sliceL text p.1 p.2))).head? with
    | some d => some d
    | none =>
      match ((patMatches seekP2At tl).filterMap
          (fun p => parsePostedDate now (sliceL text p.1 p.2))).head? with
      | some d => some d
      | none =>
        match ((splitLines text).filterMap (fun line =>
            let ll := lowerS (stripL line)
            if containsSub ll "posted".data || containsSub ll "date posted".data then
              parsePostedDate now line
            else none)).head? with
        | some d => some d
        | none =>
          match capStage now text tl postedNumDateAt with
          | some d => some d
          | none =>
            match capStage now text tl postedWordDateAt with
            | some d => some d
            | none => capStage now text tl (fun t i => (dateSegAt t i).map (fun e => (i, e)))

/-! ### Helper predicates and concrete instances -/

/-- Descending order on entry scores. -/
def scoreGE (a b : KwEntry) : Prop := b.score ≤ a.score

/-- Boolean disjointness of two term lists. -/
def disjointStr (l1 l2 : List Str) : Bool := l1.all (fun t => decide (t ∉ l2))

/-- The skill dictionary for the tie-break counterexample: two language
entries, modelled from the spec's dictionary schema (the JSON dictionary file
itself is not part of the sources). -/
def dictC2 : List Skill :=
  [⟨"Python".data, "language".data, []⟩, ⟨"Kotlin".data, "language".data, []⟩]

/-- A one-entry dictionary whose canonical term `Python` carries the alias
`python3` (modelled from the spec's dictionary schema). -/
def dictPy : List Skill :=
  [⟨"Python".data, "language".data, ["python3".data]⟩]

/-- A text placing the canonical spelling under a main-skills heading and the
alias inside a bonus-experience section. -/
def textPyBonus : Str := "Skills and Tools: Python. Bonus experience: Python3.".data

/-- An alias-free one-entry dictionary (modelled from the spec's dictionary
schema). -/
def dictNoAlias : List Skill := [⟨"Python".data, "language".data, []⟩]

/-- A text whose canonical spelling itself sits inside a bonus-experience
section. -/
def textC3w : Str := "Bonus experience: Python.".data

/-- A one-entry dictionary with the technical (language) term `Java`
(modelled from the spec's dictionary schema). -/
def dictJava : List Skill := [⟨"Java".data, "language".data, []⟩]

/-- A text classifying `Java` as a must-have dictionary match. -/
def textJava : Str := "Requirements: Java".data

/-- A one-entry devops dictionary (modelled from the spec's dictionary
schema). -/
def dictKube : List Skill := [⟨"Kubernetes".data, "devops".data, []⟩]

/-- A text with a single occurrence inside a bonus-experience section. -/
def textKube : Str := "Bonus experience: Kubernetes".data

/-- How many occurrences take the gated nice-to-have-indicator branch: the
gate closes as soon as a position inside the main-skills section has been
seen (including the current one, as the main-skills statement precedes the
indicator statement in the loop body). -/
def gatedNiceCount (text : Str) : List Nat → Bool → Nat
  | [], _ => 0
  | p :: ps, sk =>
    (if !(sk || isInMainSkillsSection text p) && isInSection text p niceToHaveIndicators
      then 1 else 0) +
      gatedNiceCount text ps (sk || isInMainSkillsSection text p)

/-- Invariant of `keyword_scores`: every entry is keyed by the lowercase of
its term. -/
def KeyIsLowerTerm (m : List (Str × KwEntry)) : Prop :=
  ∀ p ∈ m, p.1 = lowerS p.2.term

/-- Invariant of `keyword_scores`: entries sharing a key share their term. -/
def KeyDeterminesTerm (m : List (Str × KwEntry)) : Prop :=
  ∀ p ∈ m, ∀ q ∈ m, p.1 = q.1 → p.2.term = q.2.term

/-- Invariant of the scores dictionary relative to the canonical-term list
`V`: keys are the lowercased terms and every stored term is canonical. -/
def ScoresInv (V : List Str) (m : List (Str × KwEntry)) : Prop :=
  ∀ p ∈ m, p.1 = lowerS p.2.term ∧ p.2.term ∈ V

/-- Invariant of the cascade state: every term of the two sets is canonical
and owns an entry of the scores dictionary carrying the same term. -/
def SetsCovered (V : List Str) (st : PipeState) : Prop :=
  ∀ t, (t ∈ st.must ∨ t ∈ st.nice) → t ∈ V ∧ ∃ p ∈ st.scores, p.2.term = t

/-- The score formula as the spec's claim states it, read as generously as
possible (spec-modelled, for comparison with the source's `aliasScore`): base
`count × category weight`, the title bonus once, `+2.0` per heading/bullet
occurrence, `+3.0` per must-have-context occurrence, the top rate `+2.0` per
nice-to-have-context occurrence, and `+5.0` per tech-stack occurrence. -/
def specClaimScoreMax (text al canonical category : Str) (positions : List Nat) : ℚ :=
  (positions.length : ℚ) * categoryWeight category + titleBonus text al canonical
    + 2 * (positions.countP (fun p => isInHeadingOrBullet text p) : ℚ)
    + 3 * (positions.countP (fun p => isInSection text p mustHaveIndicators) : ℚ)
    + 2 * (positions.countP (fun p => isInBonusExperienceSection text p ||
        checkContextualNiceToHave text p al ||
        isInSection text p niceToHaveIndicators) : ℚ)
    + 5 * (positions.countP (fun p => isInTechStackSection text p) : ℚ)

/-! ### Supporting lemmas -/

theorem headMatch_append (s t : Str) : headMatch s (s ++ t) = true := by
  induction s with
  | nil => rfl
  | cons c cs ih => simp [headMatch, ih]

theorem mem_setInsert {l : List Str} {x y : Str} :
    y ∈ setInsert l x ↔ y = x ∨ y ∈ l := by
  unfold setInsert
  split
  · next h => constructor
              · exact fun hy => Or.inr hy
              · rintro (rfl | hy)
                · exact h
                · exact hy
  · simp [or_comm]

theorem mem_of_mem_setInsert_prev {l : List Str} {x y : Str} (h : y ∈ l) :
    y ∈ setInsert l x := mem_setInsert.mpr (Or.inr h)

theorem mem_insStr {l : List Str} {x y : Str} :
    y ∈ insStr x l ↔ y = x ∨ y ∈ l := by
  induction l with
  | nil => simp [insStr]
  | cons a as ih =>
    unfold insStr
    split
    · simp
    · simp [ih]
      tauto

theorem mem_sortStr {l : List Str} {y : Str} : y ∈ sortStr l ↔ y ∈ l := by
  suffices h : ∀ acc, y ∈ l.foldl (fun acc x => insStr x acc) acc ↔ y ∈ acc ∨ y ∈ l by
    have := h []
    simpa [sortStr] using this
  induction l with
  | nil => simp
  | cons a as ih =>
    intro acc
    simp only [List.foldl_cons, ih, mem_insStr, List.mem_cons]
    tauto

theorem mem_insDesc {l : List KwEntry} {x y : KwEntry} :
    y ∈ insDesc x l ↔ y = x ∨ y ∈ l := by
  induction l with
  | nil => simp [insDesc]
  | cons a as ih =>
    unfold insDesc
    split
    · simp
    · simp [ih]
      tauto

theorem mem_sortByScoreDesc {l : List KwEntry} {y : KwEntry} :
    y ∈ sortByScoreDesc l ↔ y ∈ l := by
  suffices h : ∀ acc, y ∈ l.foldl (fun acc x => insDesc x acc) acc ↔ y ∈ acc ∨ y ∈ l by
    have := h []
    simpa [sortByScoreDesc] using this
  induction l with
  | nil => simp
  | cons a as ih =>
    intro acc
    simp only [List.foldl_cons, ih, mem_insDesc, List.mem_cons]
    tauto

theorem pairwise_insDesc {l : List KwEntry} {x : KwEntry} (h : l.Pairwise scoreGE) :
    (insDesc x l).Pairwise scoreGE := by
  induction l with
  | nil => simp [insDesc, List.pairwise_singleton]
  | cons a as ih =>
    rcases List.pairwise_cons.mp h with ⟨ha, has⟩
    unfold insDesc
    split
    · next hlt =>
      refine List.pairwise_cons.mpr ⟨?_, h⟩
      intro b hb
      rcases List.mem_cons.mp hb with rfl | hb
      · exact le_of_lt hlt
      · exact le_trans (ha b hb) (le_of_lt hlt)
    · next hge =>
      refine List.pairwise_cons.mpr ⟨?_, ih has⟩
      intro b hb
      rcases mem_insDesc.mp hb with rfl | hb
      · exact not_lt.mp hge
      · exact ha b hb

theorem pairwise_sortByScoreDesc (l : List KwEntry) :
    (sortByScoreDesc l).Pairwise scoreGE := by
  suffices h : ∀ acc, acc.Pairwise scoreGE →
      (l.foldl (fun acc x => insDesc x acc) acc).Pairwise scoreGE by
    exact h [] (List.Pairwise.nil)
  induction l with
  | nil => intro acc hacc; simpa using hacc
  | cons a as ih =>
    intro acc hacc
    exact ih _ (pairwise_insDesc hacc)

theorem ratFloor_eq (q : ℚ) : ratFloor q = ⌊q⌋ := Rat.floor_def.symm

theorem roundHalfEven_mono {a b : ℚ} (h : a ≤ b) : roundHalfEven a ≤ roundHalfEven b := by
  unfold roundHalfEven
  rw [ratFloor_eq, ratFloor_eq]
  have hf : ⌊a⌋ ≤ ⌊b⌋ := Int.floor_le_floor h
  have ha0 : (⌊a⌋ : ℚ) ≤ a := Int.floor_le a
  have ha1 : a < ⌊a⌋ + 1 := Int.lt_floor_add_one a
  have hb0 : (⌊b⌋ : ℚ) ≤ b := Int.floor_le b
  have hb1 : b < ⌊b⌋ + 1 := Int.lt_floor_add_one b
  rcases eq_or_lt_of_le hf with heq | hlt
  · rw [← heq]
    split_ifs <;> first | omega | (exfalso; linarith)
  · have hstep : ⌊a⌋ + 1 ≤ ⌊b⌋ := hlt
    split_ifs <;> omega

theorem round2_mono {a b : ℚ} (h : a ≤ b) : round2 a ≤ round2 b := by
  unfold round2
  have h100 : a * 100 ≤ b * 100 := by nlinarith
  have := roundHalfEven_mono h100
  have hcast : ((roundHalfEven (a * 100) : ℚ)) ≤ ((roundHalfEven (b * 100) : ℚ)) := by
    exact_mod_cast this
  linarith

theorem resolveSets_nice_not_must {text : Str} {must nice : List Str} {t : Str}
    (h : t ∈ (resolveSets text must nice).2) : t ∉ (resolveSets text must nice).1 := by
  unfold resolveSets at h ⊢
  have hd := (List.mem_filter.mp h).2
  simpa using hd

theorem extract_mustHave_mem {skills : List Skill} {text : Str} {t : Str}
    (h : t ∈ (extractKeywords skills text).mustHave) :
    t ∈ (resolveSets text (dictPhase skills text).must (dictPhase skills text).nice).1 ∧
      shouldFilterKeyword t = false := by
  unfold extractKeywords at h
  simp only at h
  have h1 := mem_sortStr.mp h
  have h2 := List.mem_filter.mp h1
  refine ⟨h2.1, ?_⟩
  have := h2.2
  simpa using this

theorem extract_niceToHave_mem {skills : List Skill} {text : Str} {t : Str}
    (h : t ∈ (extractKeywords skills text).niceToHave) :
    t ∈ (resolveSets text (dictPhase skills text).must (dictPhase skills text).nice).2 ∧
      shouldFilterKeyword t = false := by
  unfold extractKeywords at h
  simp only at h
  have h1 := mem_sortStr.mp h
  have h2 := List.mem_filter.mp h1
  refine ⟨h2.1, ?_⟩
  have := h2.2
  simpa using this

/-- Claim C1: for every skill dictionary and every input text, the
`must_have_keywords` and `nice_to_have_keywords` lists returned by
`extract_keywords` are disjoint: no canonical term appears in both. -/
theorem extract_keywords_disjoint (skills : List Skill) (text : Str) :
    disjointStr (extractKeywords skills text).mustHave
      (extractKeywords skills text).niceToHave = true := by
  unfold disjointStr
  rw [List.all_eq_true]
  intro t ht
  rw [decide_eq_true_eq]
  intro hn
  have hm := (extract_mustHave_mem ht).1
  have hn2 := (extract_niceToHave_mem hn).1
  exact resolveSets_nice_not_must hn2 hm

/-- Claim C2 counterexample: on the text `"Python Kotlin"` both terms score
4.3, yet the returned order is `[Python, Kotlin]` — the dictionary insertion
order — although `"Kotlin" < "Python"`, so equal scores are not returned in
ascending term order. -/
theorem keywords_tie_not_term_ascending :
    (extractKeywords dictC2 "Python Kotlin".data).keywords.map
        (fun e => (e.term, e.score)) =
      [("Python".data, 43 / 10), ("Kotlin".data, 43 / 10)] ∧
      ltStr "Kotlin".data "Python".data = true := by
  constructor
  · decide
  · decide

/-- Claim C2 (amended): the `keywords` list returned by `extract_keywords` is
sorted by score descending; entries with equal scores keep their insertion
order (dictionary order, then dynamic-discovery order), which is not
necessarily ascending term order. -/
theorem extract_keywords_sorted_desc (skills : List Skill) (text : Str) :
    (extractKeywords skills text).keywords.Pairwise scoreGE := by
  unfold extractKeywords
  simp only
  apply List.Pairwise.filter
  unfold keywordsAll
  rw [List.pairwise_map]
  apply List.Pairwise.imp ?_ (pairwise_sortByScoreDesc _)
  intro a b hab
  exact round2_mono hab

theorem headMatch_refl (s : Str) : headMatch s s = true := by
  have := headMatch_append s []
  simpa using this

theorem headMatch_append3 (s t u : Str) : headMatch s (s ++ t ++ u) = true := by
  rw [List.append_assoc]
  exact headMatch_append s (t ++ u)

theorem degreeAttempt_some {text tl title : Str} {kws : List Str}
    (h : kws.any (fun kw => wbFound tl kw) = true) :
    ∃ r, degreeAttempt text tl title kws = some r ∧ headMatch title r = true := by
  unfold degreeAttempt
  obtain ⟨kw, hkw, hf⟩ := List.any_eq_true.mp h
  have hsome : (kws.find? (fun kw => wbFound tl kw)).isSome :=
    List.find?_isSome.mpr ⟨kw, hkw, hf⟩
  obtain ⟨k0, hk0⟩ := Option.isSome_iff_exists.mp hsome
  rw [hk0]
  refine ⟨_, rfl, ?_⟩
  rcases hbnd : bndKwFirst text k0 with _ | i <;> simp only [hbnd]
  · exact headMatch_refl title
  · rcases hfld : degreeField text (i + k0.length) with _ | g <;> simp only [hfld]
    · exact headMatch_refl title
    · by_cases hlen : 2 < (stripL g).length
      · simp only [hlen, if_true]
        simp only [List.append_assoc]
        exact headMatch_append title _
      · simp [hlen, headMatch_refl]

theorem degreeAttempt_none {text tl title : Str} {kws : List Str}
    (h : kws.any (fun kw => wbFound tl kw) = false) :
    degreeAttempt text tl title kws = none := by
  unfold degreeAttempt
  have hfind : kws.find? (fun kw => wbFound tl kw) = none := by
    rw [List.find?_eq_none]
    intro x hx hpx
    have hany : kws.any (fun kw => wbFound tl kw) = true :=
      List.any_eq_true.mpr ⟨x, hx, hpx⟩
    rw [h] at hany
    exact Bool.false_ne_true hany
  rw [hfind]

/-- Claim C7 counterexample: the text `"PhD or Bachelor"` contains degree
keywords of two levels, yet `extract_degree_required` returns `"Bachelor"`,
not the PhD level — the groups are tried in the insertion order of
`DEGREE_KEYWORDS`, which begins with bachelor. -/
theorem degree_phd_bachelor_counterexample :
    extractDegreeRequired "PhD or Bachelor".data = some "Bachelor".data ∧
      wbFound (lowerS "PhD or Bachelor".data) "phd".data = true := by
  constructor
  · decide
  · decide

/-- Claim C7 (amended): `extract_degree_required` tries the degree groups in
the insertion order of `DEGREE_KEYWORDS` — bachelor, master, phd, associate —
so any bachelor keyword wins over a PhD mention: when a bachelor keyword
occurs (word-bounded) the result starts with "Bachelor", and a "Phd" result
arises only when no bachelor and no master keyword occurs. -/
theorem degree_priority_insertion_order (text : Str) :
    (bachelorKws.any (fun kw => wbFound (lowerS text) kw) = true →
      ∃ r, extractDegreeRequired text = some r ∧ headMatch "Bachelor".data r = true) ∧
      (bachelorKws.any (fun kw => wbFound (lowerS text) kw) = false →
        masterKws.any (fun kw => wbFound (lowerS text) kw) = false →
        phdKws.any (fun kw => wbFound (lowerS text) kw) = true →
        ∃ r, extractDegreeRequired text = some r ∧ headMatch "Phd".data r = true) := by
  constructor
  · intro hb
    unfold extractDegreeRequired
    obtain ⟨r, hr, hpre⟩ :=
      @degreeAttempt_some text (lowerS text) "Bachelor".data bachelorKws hb
    rw [hr]
    exact ⟨r, rfl, hpre⟩
  · intro hb hm hp
    unfold extractDegreeRequired
    rw [degreeAttempt_none hb, degreeAttempt_none hm]
    obtain ⟨r, hr, hpre⟩ :=
      @degreeAttempt_some text (lowerS text) "Phd".data phdKws hp
    rw [hr]
    exact ⟨r, rfl, hpre⟩

/-- Witness for the amended degree-priority theorem, at the counterexample
text (bachelor keyword present) and at a PhD-only text. -/
theorem degree_priority_insertion_order_witness :
    (bachelorKws.any (fun kw => wbFound (lowerS "PhD or Bachelor".data) kw) = true ∧
      (∃ r, extractDegreeRequired "PhD or Bachelor".data = some r ∧
        headMatch "Bachelor".data r = true)) ∧
      (phdKws.any (fun kw => wbFound (lowerS "PhD required".data) kw) = true ∧
        (∃ r, extractDegreeRequired "PhD required".data = some r ∧
          headMatch "Phd".data r = true)) :=
  ⟨⟨by decide, (degree_priority_insertion_order "PhD or Bachelor".data).1 (by decide)⟩,
    ⟨by decide, (degree_priority_insertion_order "PhD required".data).2
      (by decide) (by decide) (by decide)⟩⟩

/-- Claim C9: the seniority cascade gives `architect` top precedence — any
title containing "architect" yields ARCHITECT; any title containing "manager"
but not "architect" yields MANAGER; in particular "Assistant Manager" yields
MANAGER. -/
theorem seniority_architect_manager :
    (∀ title jd : Str, containsSub (lowerS title) "architect".data = true →
      inferSeniority title jd = Seniority.architect) ∧
      (∀ title jd : Str, containsSub (lowerS title) "manager".data = true →
        containsSub (lowerS title) "architect".data = false →
        inferSeniority title jd = Seniority.manager) ∧
      inferSeniority "Assistant Manager".data [] = Seniority.manager := by
  refine ⟨?_, ?_, ?_⟩
  · intro t j h
    unfold inferSeniority
    simp [h]
  · intro t j hm ha
    unfold inferSeniority
    simp [hm, ha]
  · decide

/-- Witness for the seniority theorem at "Lead Architect" and
"Assistant Manager". -/
theorem seniority_architect_manager_witness :
    (containsSub (lowerS "Lead Architect".data) "architect".data = true ∧
      inferSeniority "Lead Architect".data [] = Seniority.architect) ∧
      (containsSub (lowerS "Assistant Manager".data) "manager".data = true ∧
        containsSub (lowerS "Assistant Manager".data) "architect".data = false ∧
        inferSeniority "Assistant Manager".data [] = Seniority.manager) :=
  ⟨⟨by decide, seniority_architect_manager.1 _ _ (by decide)⟩,
    ⟨by decide, by decide, seniority_architect_manager.2.1 _ _ (by decide) (by decide)⟩⟩

/-- Claim C10: a Seek-style "Posted Nd ago" phrase yields `now − N` days
(13 days before the fixed now 2024-01-20 is 2024-01-07); a relative phrase is
used before any absolute date format; and when no pattern parses the result
is absent. -/
theorem posted_date_relative_phrases :
    (∀ now : Int, extractPostedDateFromText now "Posted 13d ago".data = some (now - 13)) ∧
      extractPostedDateFromText (toDayNumber 2024 1 20) "Posted 13d ago".data =
        some (toDayNumber 2024 1 7) ∧
      (∀ (now : Int) (s : Str) (d : Nat), s ≠ [] → relativeDelta (stripL s) = some d →
        parsePostedDate now s = some (now - d)) ∧
      (∀ now : Int, extractPostedDateFromText now "hello world".data = none) := by
  refine ⟨?_, ?_, ?_, ?_⟩
  · intro now
    rfl
  · rfl
  · intro now s d hs hd
    unfold parsePostedDate
    rw [if_neg hs]
    simp only [hd]
  · intro now
    rfl

/-- Witness for the posted-date theorem: concrete day numbers, and the
relative parse taking precedence over an absolute date in the same text. -/
theorem posted_date_relative_phrases_witness :
    extractPostedDateFromText 100 "Posted 13d ago".data = some 87 ∧
      ("Posted 2w ago and 2024-01-15".data ≠ ([] : Str) ∧
        relativeDelta (stripL "Posted 2w ago and 2024-01-15".data) = some 14 ∧
        parsePostedDate 100 "Posted 2w ago and 2024-01-15".data = some 86) := by
  refine ⟨?_, by decide, by decide, ?_⟩
  · have h := posted_date_relative_phrases.1 100
    simpa using h
  · have h := posted_date_relative_phrases.2.2.1 100 "Posted 2w ago and 2024-01-15".data 14
      (by decide) (by decide)
    simpa using h

theorem dictUpsert_of_fresh {α : Type} {m : List (Str × α)} {k : Str} {v : α}
    (h : m.any (fun p => decide (p.1 = k)) = false) :
    dictUpsert m k v = m ++ [(k, v)] := by
  unfold dictUpsert
  rw [h]
  simp

/-- The first component of `create_skill_mapping`'s fold ignores the second. -/
theorem createSkillMapping_fst (skills : List Skill) :
    (createSkillMapping skills).1 =
      skills.foldl
        (fun m sk =>
          sk.aliases.foldl (fun m2 al => dictUpsert m2 (lowerS al) sk.term)
            (dictUpsert m (lowerS sk.term) sk.term))
        [] := by
  unfold createSkillMapping
  suffices h : ∀ (l : List Skill) (acc : List (Str × Str) × List (Str × Skill)),
      (l.foldl
        (fun acc sk =>
          (sk.aliases.foldl (fun m al => dictUpsert m (lowerS al) sk.term)
            (dictUpsert acc.1 (lowerS sk.term) sk.term),
            dictUpsert acc.2 (lowerS sk.term) sk))
        acc).1 =
      l.foldl
        (fun m sk =>
          sk.aliases.foldl (fun m2 al => dictUpsert m2 (lowerS al) sk.term)
            (dictUpsert m (lowerS sk.term) sk.term))
        acc.1 by
    exact h skills ([], [])
  intro l
  induction l with
  | nil => intro acc; rfl
  | cons s ss ih => intro acc; exact ih _

/-- With no aliases and pairwise-distinct lowercased terms, the
alias-to-canonical dictionary is the plain association list of the skills. -/
theorem a2c_eq_map {skills : List Skill} :
    ∀ m0 : List (Str × Str),
      (∀ s ∈ skills, s.aliases = []) →
      ((m0.map (·.1)) ++ skills.map (fun s => lowerS s.term)).Nodup →
      skills.foldl
          (fun m sk =>
            sk.aliases.foldl (fun m2 al => dictUpsert m2 (lowerS al) sk.term)
              (dictUpsert m (lowerS sk.term) sk.term))
          m0 =
        m0 ++ skills.map (fun s => (lowerS s.term, s.term)) := by
  induction skills with
  | nil => intro m0 _ _; simp
  | cons s ss ih =>
    intro m0 hA hN
    simp only [List.foldl_cons]
    rw [hA s (by simp), List.foldl_nil]
    have hnotkey : lowerS s.term ∉ m0.map (·.1) := by
      simp only [List.map_append, List.map_cons] at hN
      rcases List.nodup_append.mp hN with ⟨_, _, hdisj⟩
      intro hmem
      exact hdisj hmem (by simp)
    have hfresh : m0.any (fun p => decide (p.1 = lowerS s.term)) = false := by
      rw [List.any_eq_false]
      intro p hp
      simp only [decide_eq_true_eq]
      intro hk
      exact hnotkey (hk ▸ List.mem_map_of_mem (·.1) hp)
    rw [dictUpsert_of_fresh hfresh]
    rw [ih (m0 ++ [(lowerS s.term, s.term)]) (fun x hx => hA x (by simp [hx])) ?_]
    · simp
    · simp only [List.map_append, List.map_cons, List.map_nil] at hN ⊢
      simpa [List.append_assoc] using hN

/-- The classification step changes the two sets in exactly one of three
ways: it inserts the canonical term into `nice_to_have_terms`, inserts it
into `must_have_terms`, or leaves both unchanged. -/
theorem dictStep_sets (text : Str) (c2i : List (Str × Skill)) (st : PipeState)
    (e : Str × Str) :
    ((dictStep text c2i st e).must = st.must ∧
        (dictStep text c2i st e).nice = setInsert st.nice e.2) ∨
      ((dictStep text c2i st e).must = setInsert st.must e.2 ∧
        (dictStep text c2i st e).nice = st.nice) ∨
      ((dictStep text c2i st e).must = st.must ∧
        (dictStep text c2i st e).nice = st.nice) := by
  simp only [dictStep]
  split_ifs <;> simp

theorem dictStep_must_sub {text : Str} {c2i : List (Str × Skill)} {st : PipeState}
    {e : Str × Str} {t : Str} (h : t ∈ (dictStep text c2i st e).must) :
    t ∈ st.must ∨ t = e.2 := by
  rcases dictStep_sets text c2i st e with ⟨h1, _⟩ | ⟨h1, _⟩ | ⟨h1, _⟩ <;> rw [h1] at h
  · exact Or.inl h
  · rcases mem_setInsert.mp h with h | h
    · exact Or.inr h
    · exact Or.inl h
  · exact Or.inl h

theorem dictStep_nice_sub {text : Str} {c2i : List (Str × Skill)} {st : PipeState}
    {e : Str × Str} {t : Str} (h : t ∈ (dictStep text c2i st e).nice) :
    t ∈ st.nice ∨ t = e.2 := by
  rcases dictStep_sets text c2i st e with ⟨_, h2⟩ | ⟨_, h2⟩ | ⟨_, h2⟩ <;> rw [h2] at h
  · rcases mem_setInsert.mp h with h | h
    · exact Or.inr h
    · exact Or.inl h
  · exact Or.inl h
  · exact Or.inl h

/-- Fold invariant: with pairwise-distinct canonical values, terms never
enter both sets. -/
theorem fold_sets_disjoint (text : Str) (c2i : List (Str × Skill)) :
    ∀ (l : List (Str × Str)) (st : PipeState),
      (l.map (·.2)).Nodup →
      (∀ t, (t ∈ st.must ∨ t ∈ st.nice) → t ∉ l.map (·.2)) →
      (∀ t, t ∈ st.must → t ∈ st.nice → False) →
      ∀ t, t ∈ (l.foldl (dictStep text c2i) st).must →
        t ∈ (l.foldl (dictStep text c2i) st).nice → False := by
  intro l
  induction l with
  | nil => intro st _ _ hdisj t hm hn; exact hdisj t hm hn
  | cons e es ih =>
    intro st hnodup hfresh hdisj t hm hn
    simp only [List.foldl_cons] at hm hn
    simp only [List.map_cons, List.nodup_cons] at hnodup
    refine ih (dictStep text c2i st e) hnodup.2 ?_ ?_ t hm hn
    · intro u hu
      have hu2 : (u ∈ st.must ∨ u ∈ st.nice) ∨ u = e.2 := by
        rcases hu with hu | hu
        · rcases dictStep_must_sub hu with h | h
          · exact Or.inl (Or.inl h)
          · exact Or.inr h
        · rcases dictStep_nice_sub hu with h | h
          · exact Or.inl (Or.inr h)
          · exact Or.inr h
      rcases hu2 with hu2 | rfl
      · intro hmem
        exact hfresh u hu2 (by simp [hmem])
      · exact hnodup.1
    · intro u hum hun
      rcases dictStep_sets text c2i st e with ⟨h1, h2⟩ | ⟨h1, h2⟩ | ⟨h1, h2⟩ <;>
        rw [h1] at hum <;> rw [h2] at hun
      · rcases mem_setInsert.mp hun with rfl | hun
        · exact hfresh e.2 (Or.inl hum) (by simp)
        · exact hdisj u hum hun
      · rcases mem_setInsert.mp hum with rfl | hum
        · exact hfresh e.2 (Or.inr hun) (by simp)
        · exact hdisj u hum hun
      · exact hdisj u hum hun

/-- Claim C4 counterexample: with a dictionary whose term `Python` carries the
alias `python3` and a text placing the canonical spelling under
`Skills and Tools:` and the alias inside `Bonus experience:`, the priority
cascade puts `Python` into both sets, the safety-net intersection is the
nonempty `[Python]`, and the safety net removes the term from the
nice-to-have set. -/
theorem safety_net_fires_counterexample :
    (extractSets dictPy textPyBonus).1 = ["Python".data] ∧
      (extractSets dictPy textPyBonus).2 = ["Python".data] ∧
      safetyInter (extractSets dictPy textPyBonus).1 (extractSets dictPy textPyBonus).2 =
        ["Python".data] ∧
      resolveSets textPyBonus (extractSets dictPy textPyBonus).1
          (extractSets dictPy textPyBonus).2 =
        (["Python".data], []) :=
  ⟨by decide, by decide, by decide, by decide⟩

/-- Claim C4 (amended): when every dictionary entry is alias-free and the
lowercased canonical terms are pairwise distinct, the sets produced by the
priority cascade are already disjoint, the safety-net intersection is empty
and the de-duplication pass changes nothing; with aliases the cascade can put
one canonical term into both sets and the safety net does fire. -/
theorem cascade_disjoint_no_aliases (skills : List Skill) (text : Str)
    (hA : ∀ s ∈ skills, s.aliases = [])
    (hN : (skills.map (fun s => lowerS s.term)).Nodup) :
    safetyInter (extractSets skills text).1 (extractSets skills text).2 = [] ∧
      resolveSets text (extractSets skills text).1 (extractSets skills text).2 =
        ((extractSets skills text).1, (extractSets skills text).2) := by
  have hmaps : (createSkillMapping skills).1 =
      skills.map (fun s => (lowerS s.term, s.term)) := by
    rw [createSkillMapping_fst]
    have h := @a2c_eq_map skills [] hA (by simpa using hN)
    simpa using h
  have hnd : ((skills.map (fun s => (lowerS s.term, s.term))).map (·.2)).Nodup := by
    have h1 : (skills.map (fun s => (lowerS s.term, s.term))).map (·.2) =
        skills.map (·.term) := by
      simp [List.map_map]
    rw [h1]
    have h2 : skills.map (fun s => lowerS s.term) = (skills.map (·.term)).map lowerS := by
      simp [List.map_map]
    rw [h2] at hN
    exact hN.of_map
  have hstate : dictPhase skills text =
      (skills.map (fun s => (lowerS s.term, s.term))).foldl
        (dictStep text (createSkillMapping skills).2) ⟨[], [], []⟩ := by
    simp only [dictPhase]
    rw [hmaps]
  have hdisj : ∀ t, t ∈ (dictPhase skills text).must →
      t ∈ (dictPhase skills text).nice → False := by
    rw [hstate]
    exact fold_sets_disjoint text (createSkillMapping skills).2 _ ⟨[], [], []⟩ hnd
      (fun u hu => by rcases hu with hu | hu <;> simp at hu)
      (fun u hu hv => by simp at hu)
  have hinter : safetyInter (extractSets skills text).1 (extractSets skills text).2 = [] := by
    unfold safetyInter extractSets
    rw [List.filter_eq_nil_iff]
    intro t ht
    simp only [decide_eq_true_eq, Decidable.not_not]
    exact fun hn => hdisj t ht hn
  have hfold : safetyFold text (extractSets skills text).1 (extractSets skills text).2 =
      ((extractSets skills text).1, (extractSets skills text).2) := by
    unfold safetyFold
    rw [hinter]
    rfl
  refine ⟨hinter, ?_⟩
  unfold resolveSets
  rw [hfold]
  refine Prod.ext rfl ?_
  simp only
  rw [List.filter_eq_self]
  intro t ht
  simp only [decide_eq_true_eq]
  exact fun hm => hdisj t hm ht

theorem cascade_disjoint_no_aliases_witness :
    ((∀ s ∈ dictNoAlias, s.aliases = []) ∧
        (dictNoAlias.map (fun s => lowerS s.term)).Nodup) ∧
      safetyInter (extractSets dictNoAlias textPyBonus).1
          (extractSets dictNoAlias textPyBonus).2 = [] ∧
      resolveSets textPyBonus (extractSets dictNoAlias textPyBonus).1
          (extractSets dictNoAlias textPyBonus).2 =
        ((extractSets dictNoAlias textPyBonus).1,
          (extractSets dictNoAlias textPyBonus).2) :=
  ⟨⟨by decide, by decide⟩,
    cascade_disjoint_no_aliases dictNoAlias textPyBonus (by decide) (by decide)⟩

theorem occTech_bonusExp (text : Str) (st : OccCtx) (pos : Nat) :
    (occTech text st pos).hasBonusExperience = st.hasBonusExperience := by
  unfold occTech
  split_ifs <;> rfl

theorem occBonusCtx_bonusExp (text al : Str) (st : OccCtx) (pos : Nat) :
    (occBonusCtx text al st pos).hasBonusExperience =
      (st.hasBonusExperience || isInBonusExperienceSection text pos) := by
  unfold occBonusCtx
  split_ifs with h1 h2 <;> simp [h1]

theorem occSkills_bonusExp (text : Str) (st : OccCtx) (pos : Nat) :
    (occSkills text st pos).hasBonusExperience = st.hasBonusExperience := by
  unfold occSkills
  split_ifs <;> rfl

theorem occNiceInd_bonusExp (text : Str) (st : OccCtx) (pos : Nat) :
    (occNiceInd text st pos).hasBonusExperience = st.hasBonusExperience := by
  unfold occNiceInd
  split_ifs <;> rfl

theorem occMustInd_bonusExp (text : Str) (st : OccCtx) (pos : Nat) :
    (occMustInd text st pos).hasBonusExperience = st.hasBonusExperience := by
  unfold occMustInd
  split_ifs <;> rfl

theorem occHeading_bonusExp (text : Str) (st : OccCtx) (pos : Nat) :
    (occHeading text st pos).hasBonusExperience = st.hasBonusExperience := by
  unfold occHeading
  split_ifs <;> rfl

/-- The `has_bonus_experience` flag after one occurrence-loop iteration: it is
set exactly when it was set before or the position lies in a bonus-experience
section. -/
theorem occStep_bonus (text al : Str) (st : OccCtx) (pos : Nat) :
    (occStep text al st pos).hasBonusExperience =
      (st.hasBonusExperience || isInBonusExperienceSection text pos) := by
  simp only [occStep, occHeading_bonusExp, occMustInd_bonusExp, occNiceInd_bonusExp,
    occSkills_bonusExp, occBonusCtx_bonusExp, occTech_bonusExp]

theorem foldl_occStep_bonus (text al : Str) :
    ∀ (ps : List Nat) (st : OccCtx),
      (ps.foldl (occStep text al) st).hasBonusExperience =
        (st.hasBonusExperience || ps.any (fun p => isInBonusExperienceSection text p)) := by
  intro ps
  induction ps with
  | nil => intro st; simp
  | cons p ps ih =>
    intro st
    simp only [List.foldl_cons, List.any_cons]
    rw [ih, occStep_bonus, Bool.or_assoc]

theorem aliasOccCtx_bonus (text al : Str) (ps : List Nat) :
    (aliasOccCtx text al ps).hasBonusExperience =
      ps.any (fun p => isInBonusExperienceSection text p) := by
  unfold aliasOccCtx
  rw [foldl_occStep_bonus]
  simp [occInit]

/-- When some occurrence of the alias lies in a bonus-experience section, the
classification step inserts the canonical term into `nice_to_have_terms`. -/
theorem dictStep_nice_of_bonus {text : Str} {c2i : List (Str × Skill)} {st : PipeState}
    {e : Str × Str}
    (h : ((findKeywordPositions text e.1).map (·.1)).any
        (fun p => isInBonusExperienceSection text p) = true) :
    (dictStep text c2i st e).nice = setInsert st.nice e.2 := by
  have hne : ¬((findKeywordPositions text e.1).map (·.1) = []) := by
    intro hc
    rw [hc] at h
    simp at h
  have hb : (aliasOccCtx text e.1
      ((findKeywordPositions text e.1).map (·.1))).hasBonusExperience = true := by
    rw [aliasOccCtx_bonus, h]
  simp only [dictStep]
  rw [if_neg hne]
  simp [hb]

theorem dictStep_nice_mono {text : Str} {c2i : List (Str × Skill)} {st : PipeState}
    {e : Str × Str} {t : Str} (h : t ∈ st.nice) : t ∈ (dictStep text c2i st e).nice := by
  rcases dictStep_sets text c2i st e with ⟨_, h2⟩ | ⟨_, h2⟩ | ⟨_, h2⟩ <;> rw [h2]
  · exact mem_of_mem_setInsert_prev h
  · exact h
  · exact h

theorem foldl_dictStep_nice_mono {text : Str} {c2i : List (Str × Skill)} {t : Str} :
    ∀ (l : List (Str × Str)) (st : PipeState), t ∈ st.nice →
      t ∈ (l.foldl (dictStep text c2i) st).nice := by
  intro l
  induction l with
  | nil => intro st h; exact h
  | cons e es ih => intro st h; exact ih _ (dictStep_nice_mono h)

/-- An alias entry with a bonus-experience occurrence puts its canonical term
into the `nice_to_have_terms` set of the dictionary phase. -/
theorem dictPhase_nice_of_mem {skills : List Skill} {text : Str} {e : Str × Str}
    (hac : e ∈ (createSkillMapping skills).1)
    (hba : ((findKeywordPositions text e.1).map (·.1)).any
        (fun p => isInBonusExperienceSection text p) = true) :
    e.2 ∈ (dictPhase skills text).nice := by
  obtain ⟨l1, l2, hsplit⟩ := List.append_of_mem hac
  simp only [dictPhase]
  rw [hsplit, List.foldl_append, List.foldl_cons]
  apply foldl_dictStep_nice_mono
  rw [dictStep_nice_of_bonus hba]
  exact mem_setInsert.mpr (Or.inl rfl)

/-- A term whose canonical spelling has a bonus-experience occurrence survives
the safety-net loop inside `nice_to_have_terms`. -/
theorem safetyFold_nice_mem {text c : Str}
    (hbr : (findKeywordPositions text c).any
        (fun p => isInBonusExperienceSection text p.1) = true) :
    ∀ (inter : List Str) (mn : List Str × List Str), c ∈ mn.2 →
      c ∈ (inter.foldl (safetyStep text) mn).2 := by
  intro inter
  induction inter with
  | nil => intro mn h; exact h
  | cons t ts ih =>
    intro mn h
    simp only [List.foldl_cons]
    apply ih
    unfold safetyStep
    by_cases hct : c = t
    · subst hct
      rw [if_pos hbr]
      exact h
    · split_ifs
      · exact h
      · exact List.mem_filter.mpr ⟨h, by simp [hct]⟩

/-- A term whose canonical spelling has a bonus-experience occurrence is
absent from `must_have_terms` after the safety-net loop whenever it is listed
in the intersection or was never in `must_have_terms`. -/
theorem safetyFold_must_not_mem {text c : Str}
    (hbr : (findKeywordPositions text c).any
        (fun p => isInBonusExperienceSection text p.1) = true) :
    ∀ (inter : List Str) (mn : List Str × List Str),
      (c ∈ inter ∨ c ∉ mn.1) →
      c ∉ (inter.foldl (safetyStep text) mn).1 := by
  intro inter
  induction inter with
  | nil =>
    intro mn h
    rcases h with h | h
    · exact absurd h (List.not_mem_nil c)
    · exact h
  | cons t ts ih =>
    intro mn h
    simp only [List.foldl_cons]
    by_cases hct : c = t
    · subst hct
      apply ih
      right
      unfold safetyStep
      rw [if_pos hbr]
      simp only
      intro hmem
      exact absurd (List.mem_filter.mp hmem).2 (by simp)
    · rcases h with h | h
      · rcases List.mem_cons.mp h with h | h
        · exact absurd h hct
        · exact ih _ (Or.inl h)
      · apply ih
        right
        unfold safetyStep
        split_ifs
        · simp only
          intro hmem
          exact h (List.mem_filter.mp hmem).1
        · exact h

/-- Claim C3 counterexample: with dictionary `dictPy` (canonical `Python`,
alias `python3`) and `textPyBonus`, the term has an occurrence — via its alias
— inside the `Bonus experience:` section and an occurrence under
`Skills and Tools:`, yet `extract_keywords` returns it as must-have and the
nice-to-have list is empty. -/
theorem bonus_occurrence_not_nice_counterexample :
    ("python3".data, "Python".data) ∈ (createSkillMapping dictPy).1 ∧
      ((findKeywordPositions textPyBonus "python3".data).map (·.1)).any
        (fun p => isInBonusExperienceSection textPyBonus p) = true ∧
      ((findKeywordPositions textPyBonus "python".data).map (·.1)).any
        (fun p => isInMainSkillsSection textPyBonus p) = true ∧
      (extractKeywords dictPy textPyBonus).mustHave = ["Python".data] ∧
      (extractKeywords dictPy textPyBonus).niceToHave = [] :=
  ⟨by decide, by decide, by decide, by decide, by decide⟩

/-- Claim C3 (amended): a bonus-experience occurrence of an alias classifies
the canonical term nice-to-have provided the canonical spelling itself also
has a bonus-experience occurrence (as the safety net re-checks only the
canonical spelling); without that proviso an aliased term can come back
must-have. -/
theorem bonus_occurrence_nice_to_have (skills : List Skill) (text : Str)
    (e : Str × Str)
    (hac : e ∈ (createSkillMapping skills).1)
    (hba : ((findKeywordPositions text e.1).map (·.1)).any
        (fun p => isInBonusExperienceSection text p) = true)
    (hbc : (findKeywordPositions text e.2).any
        (fun p => isInBonusExperienceSection text p.1) = true)
    (hsf : shouldFilterKeyword e.2 = false) :
    e.2 ∈ (extractKeywords skills text).niceToHave ∧
      e.2 ∉ (extractKeywords skills text).mustHave := by
  have hnice : e.2 ∈ (dictPhase skills text).nice := dictPhase_nice_of_mem hac hba
  have h2 : e.2 ∈ (safetyFold text (dictPhase skills text).must
      (dictPhase skills text).nice).2 := by
    unfold safetyFold
    exact safetyFold_nice_mem hbc _ _ hnice
  have h1 : e.2 ∉ (safetyFold text (dictPhase skills text).must
      (dictPhase skills text).nice).1 := by
    unfold safetyFold
    apply safetyFold_must_not_mem hbc
    by_cases hm : e.2 ∈ (dictPhase skills text).must
    · left
      exact List.mem_filter.mpr ⟨hm, by simp [hnice]⟩
    · right
      exact hm
  have hres2 : e.2 ∈ (resolveSets text (dictPhase skills text).must
      (dictPhase skills text).nice).2 := by
    unfold resolveSets
    exact List.mem_filter.mpr ⟨h2, by simp [h1]⟩
  have hres1 : e.2 ∉ (resolveSets text (dictPhase skills text).must
      (dictPhase skills text).nice).1 := h1
  constructor
  · unfold extractKeywords
    simp only
    rw [mem_sortStr]
    exact List.mem_filter.mpr ⟨hres2, by simp [hsf]⟩
  · unfold extractKeywords
    simp only
    rw [mem_sortStr]
    intro hmem
    exact hres1 (List.mem_filter.mp hmem).1

theorem bonus_occurrence_nice_to_have_witness :
    (("python".data, "Python".data) ∈ (createSkillMapping dictNoAlias).1 ∧
        ((findKeywordPositions textC3w "python".data).map (·.1)).any
          (fun p => isInBonusExperienceSection textC3w p) = true ∧
        (findKeywordPositions textC3w "Python".data).any
          (fun p => isInBonusExperienceSection textC3w p.1) = true ∧
        shouldFilterKeyword "Python".data = false) ∧
      "Python".data ∈ (extractKeywords dictNoAlias textC3w).niceToHave ∧
        "Python".data ∉ (extractKeywords dictNoAlias textC3w).mustHave :=
  ⟨⟨by decide, by decide, by decide, by decide⟩,
    bonus_occurrence_nice_to_have dictNoAlias textC3w ("python".data, "Python".data)
      (by decide) (by decide) (by decide) (by decide)⟩

/-- Claim C6 counterexample: `Java` is a dictionary term of the technical
category `language` and its lowercase form is not in the curated denylist,
yet `should_filter_keyword` flags it (the denylist entry `a` is a substring
of `java` and `java` is at most three characters longer), so the noise filter
strips it from the keywords list and the must-have set even though the
cascade had matched and classified it. -/
theorem java_filtered_counterexample :
    "java".data ∉ commonKeywordsToFilter ∧
      shouldFilterKeyword "Java".data = true ∧
      "Java".data ∈ (extractSets dictJava textJava).1 ∧
      (keywordsAll dictJava textJava).map (fun e => e.term) = ["Java".data] ∧
      (extractKeywords dictJava textJava).keywords = [] ∧
      (extractKeywords dictJava textJava).mustHave = [] ∧
      (extractKeywords dictJava textJava).niceToHave = [] :=
  ⟨by decide, by decide, by decide, by decide, by decide, by decide, by decide⟩

/-- Claim C6 (amended): the noise filter removes exactly the terms flagged by
`should_filter_keyword`, regardless of dictionary provenance or category: a
term it does not flag is kept — it appears in the final keywords list, the
must-have set and the nice-to-have set exactly as often as before the filter
step — while a flagged term is dropped even when it is a technical dictionary
term absent from the denylist. -/
theorem filter_preserves_unfiltered (skills : List Skill) (text : Str) (t : Str)
    (h : shouldFilterKeyword t = false) :
    ((∃ e ∈ (extractKeywords skills text).keywords, e.term = t) ↔
        ∃ e ∈ keywordsAll skills text, e.term = t) ∧
      (t ∈ (extractKeywords skills text).mustHave ↔
        t ∈ (resolveSets text (dictPhase skills text).must (dictPhase skills text).nice).1) ∧
      (t ∈ (extractKeywords skills text).niceToHave ↔
        t ∈ (resolveSets text (dictPhase skills text).must (dictPhase skills text).nice).2) := by
  refine ⟨?_, ?_, ?_⟩
  · unfold extractKeywords
    simp only
    constructor
    · rintro ⟨e, he, rfl⟩
      exact ⟨e, (List.mem_filter.mp he).1, rfl⟩
    · rintro ⟨e, he, rfl⟩
      refine ⟨e, List.mem_filter.mpr ⟨he, ?_⟩, rfl⟩
      simp [h]
  · unfold extractKeywords
    simp only
    rw [mem_sortStr]
    constructor
    · intro hm
      exact (List.mem_filter.mp hm).1
    · intro hm
      exact List.mem_filter.mpr ⟨hm, by simp [h]⟩
  · unfold extractKeywords
    simp only
    rw [mem_sortStr]
    constructor
    · intro hm
      exact (List.mem_filter.mp hm).1
    · intro hm
      exact List.mem_filter.mpr ⟨hm, by simp [h]⟩

theorem filter_preserves_unfiltered_witness :
    shouldFilterKeyword "Python".data = false ∧
      (((∃ e ∈ (extractKeywords dictNoAlias textC3w).keywords, e.term = "Python".data) ↔
          ∃ e ∈ keywordsAll dictNoAlias textC3w, e.term = "Python".data) ∧
        ("Python".data ∈ (extractKeywords dictNoAlias textC3w).mustHave ↔
          "Python".data ∈ (resolveSets textC3w (dictPhase dictNoAlias textC3w).must
            (dictPhase dictNoAlias textC3w).nice).1) ∧
        ("Python".data ∈ (extractKeywords dictNoAlias textC3w).niceToHave ↔
          "Python".data ∈ (resolveSets textC3w (dictPhase dictNoAlias textC3w).must
            (dictPhase dictNoAlias textC3w).nice).2)) :=
  ⟨by decide, filter_preserves_unfiltered dictNoAlias textC3w "Python".data (by decide)⟩

/-! ### Closed form of the per-alias score -/

theorem occTech_eq (text : Str) (st : OccCtx) (pos : Nat) :
    occTech text st pos =
      { st with
        techBonus := st.techBonus + (if isInTechStackSection text pos then 5 else 0),
        hasTechStack := st.hasTechStack || isInTechStackSection text pos } := by
  unfold occTech
  cases h : isInTechStackSection text pos <;> simp [h]

theorem occBonusCtx_eq (text al : Str) (st : OccCtx) (pos : Nat) :
    occBonusCtx text al st pos =
      { st with
        niceBonus := st.niceBonus +
          (if isInBonusExperienceSection text pos then 2
            else if checkContextualNiceToHave text pos al then 3 / 2 else 0),
        hasBonusExperience := st.hasBonusExperience || isInBonusExperienceSection text pos,
        hasNiceIndicator := st.hasNiceIndicator ||
          (!isInBonusExperienceSection text pos && checkContextualNiceToHave text pos al) } := by
  unfold occBonusCtx
  cases hb : isInBonusExperienceSection text pos <;>
    cases hc : checkContextualNiceToHave text pos al <;> simp [hb, hc]

theorem occSkills_eq (text : Str) (st : OccCtx) (pos : Nat) :
    occSkills text st pos =
      { st with
        mustBonus := st.mustBonus + (if isInMainSkillsSection text pos then 3 else 0),
        hasSkillsTools := st.hasSkillsTools || isInMainSkillsSection text pos } := by
  unfold occSkills
  cases h : isInMainSkillsSection text pos <;> simp [h]

theorem occNiceInd_eq (text : Str) (st : OccCtx) (pos : Nat) :
    occNiceInd text st pos =
      { st with
        niceBonus := st.niceBonus +
          (if !st.hasSkillsTools && isInSection text pos niceToHaveIndicators
            then 3 / 2 else 0),
        hasNiceIndicator := st.hasNiceIndicator ||
          (!st.hasSkillsTools && isInSection text pos niceToHaveIndicators) } := by
  unfold occNiceInd
  cases h : (!st.hasSkillsTools && isInSection text pos niceToHaveIndicators) <;> simp [h]

theorem occMustInd_eq (text : Str) (st : OccCtx) (pos : Nat) :
    occMustInd text st pos =
      { st with
        mustBonus := st.mustBonus +
          (if isInSection text pos mustHaveIndicators then 3 else 0),
        hasMustIndicator := st.hasMustIndicator || isInSection text pos mustHaveIndicators } := by
  unfold occMustInd
  cases h : isInSection text pos mustHaveIndicators <;> simp [h]

theorem occHeading_eq (text : Str) (st : OccCtx) (pos : Nat) :
    occHeading text st pos =
      { st with
        headingBonus := st.headingBonus +
          (if isInHeadingOrBullet text pos then 2 else 0) } := by
  unfold occHeading
  cases h : isInHeadingOrBullet text pos <;> simp [h]

theorem occStep_tech (text al : Str) (st : OccCtx) (pos : Nat) :
    (occStep text al st pos).techBonus =
      st.techBonus + (if isInTechStackSection text pos then 5 else 0) := by
  simp only [occStep, occHeading_eq, occMustInd_eq, occNiceInd_eq, occSkills_eq,
    occBonusCtx_eq, occTech_eq]

theorem occStep_heading (text al : Str) (st : OccCtx) (pos : Nat) :
    (occStep text al st pos).headingBonus =
      st.headingBonus + (if isInHeadingOrBullet text pos then 2 else 0) := by
  simp only [occStep, occHeading_eq, occMustInd_eq, occNiceInd_eq, occSkills_eq,
    occBonusCtx_eq, occTech_eq]

theorem occStep_must (text al : Str) (st : OccCtx) (pos : Nat) :
    (occStep text al st pos).mustBonus =
      st.mustBonus + (if isInMainSkillsSection text pos then 3 else 0) +
        (if isInSection text pos mustHaveIndicators then 3 else 0) := by
  simp only [occStep, occHeading_eq, occMustInd_eq, occNiceInd_eq, occSkills_eq,
    occBonusCtx_eq, occTech_eq]

theorem occStep_skillsFlag (text al : Str) (st : OccCtx) (pos : Nat) :
    (occStep text al st pos).hasSkillsTools =
      (st.hasSkillsTools || isInMainSkillsSection text pos) := by
  simp only [occStep, occHeading_eq, occMustInd_eq, occNiceInd_eq, occSkills_eq,
    occBonusCtx_eq, occTech_eq]

theorem occStep_nice (text al : Str) (st : OccCtx) (pos : Nat) :
    (occStep text al st pos).niceBonus =
      st.niceBonus +
        (if isInBonusExperienceSection text pos then 2
          else if checkContextualNiceToHave text pos al then 3 / 2 else 0) +
        (if !(st.hasSkillsTools || isInMainSkillsSection text pos) &&
            isInSection text pos niceToHaveIndicators then 3 / 2 else 0) := by
  simp only [occStep, occHeading_eq, occMustInd_eq, occNiceInd_eq, occSkills_eq,
    occBonusCtx_eq, occTech_eq]

theorem foldl_occStep_techBonus (text al : Str) :
    ∀ (ps : List Nat) (st : OccCtx),
      (ps.foldl (occStep text al) st).techBonus =
        st.techBonus + 5 * (ps.countP (fun p => isInTechStackSection text p) : ℚ) := by
  intro ps
  induction ps with
  | nil => intro st; simp
  | cons p ps ih =>
    intro st
    simp only [List.foldl_cons, List.countP_cons]
    rw [ih, occStep_tech]
    split_ifs <;> push_cast <;> ring

theorem foldl_occStep_headingBonus (text al : Str) :
    ∀ (ps : List Nat) (st : OccCtx),
      (ps.foldl (occStep text al) st).headingBonus =
        st.headingBonus + 2 * (ps.countP (fun p => isInHeadingOrBullet text p) : ℚ) := by
  intro ps
  induction ps with
  | nil => intro st; simp
  | cons p ps ih =>
    intro st
    simp only [List.foldl_cons, List.countP_cons]
    rw [ih, occStep_heading]
    split_ifs <;> push_cast <;> ring

theorem foldl_occStep_mustBonus (text al : Str) :
    ∀ (ps : List Nat) (st : OccCtx),
      (ps.foldl (occStep text al) st).mustBonus =
        st.mustBonus + 3 * (ps.countP (fun p => isInMainSkillsSection text p) : ℚ) +
          3 * (ps.countP (fun p => isInSection text p mustHaveIndicators) : ℚ) := by
  intro ps
  induction ps with
  | nil => intro st; simp
  | cons p ps ih =>
    intro st
    simp only [List.foldl_cons, List.countP_cons]
    rw [ih, occStep_must]
    split_ifs <;> push_cast <;> ring

theorem foldl_occStep_skillsFlag (text al : Str) :
    ∀ (ps : List Nat) (st : OccCtx),
      (ps.foldl (occStep text al) st).hasSkillsTools =
        (st.hasSkillsTools || ps.any (fun p => isInMainSkillsSection text p)) := by
  intro ps
  induction ps with
  | nil => intro st; simp
  | cons p ps ih =>
    intro st
    simp only [List.foldl_cons, List.any_cons]
    rw [ih, occStep_skillsFlag, Bool.or_assoc]

theorem foldl_occStep_niceBonus (text al : Str) :
    ∀ (ps : List Nat) (st : OccCtx),
      (ps.foldl (occStep text al) st).niceBonus =
        st.niceBonus
          + 2 * (ps.countP (fun p => isInBonusExperienceSection text p) : ℚ)
          + (3 / 2) * (ps.countP (fun p => !isInBonusExperienceSection text p &&
              checkContextualNiceToHave text p al) : ℚ)
          + (3 / 2) * (gatedNiceCount text ps st.hasSkillsTools : ℚ) := by
  intro ps
  induction ps with
  | nil => intro st; simp [gatedNiceCount]
  | cons p ps ih =>
    intro st
    simp only [List.foldl_cons, List.countP_cons, gatedNiceCount]
    rw [ih, occStep_nice, occStep_skillsFlag]
    cases hb : isInBonusExperienceSection text p <;>
      cases hc : checkContextualNiceToHave text p al <;>
        cases hg : (!(st.hasSkillsTools || isInMainSkillsSection text p) &&
            isInSection text p niceToHaveIndicators) <;>
      simp [hb, hc, hg] <;> ring

/-- Claim C5 (amended): the per-alias `total_score` is
`count × category_weight` plus the title bonus (once) plus flat bonuses that
STACK per occurrence: `+5.0` per tech-stack occurrence, `+2.0` per
heading/bullet occurrence, `+3.0` per main-skills occurrence AND another
`+3.0` per must-have-indicator occurrence, `+2.0` per bonus-experience
occurrence, `+1.5` per contextual nice-to-have occurrence outside bonus
sections, and a further `+1.5` per nice-to-have-indicator occurrence while
no main-skills occurrence has yet been seen — so one occurrence can earn
several of these bonuses at once. -/
theorem alias_score_formula (text al canonical category : Str) (positions : List Nat) :
    aliasScore text al canonical category positions =
      (positions.length : ℚ) * categoryWeight category
        + titleBonus text al canonical
        + 5 * (positions.countP (fun p => isInTechStackSection text p) : ℚ)
        + 2 * (positions.countP (fun p => isInHeadingOrBullet text p) : ℚ)
        + 3 * (positions.countP (fun p => isInMainSkillsSection text p) : ℚ)
        + 3 * (positions.countP (fun p => isInSection text p mustHaveIndicators) : ℚ)
        + 2 * (positions.countP (fun p => isInBonusExperienceSection text p) : ℚ)
        + (3 / 2) * (positions.countP (fun p => !isInBonusExperienceSection text p &&
            checkContextualNiceToHave text p al) : ℚ)
        + (3 / 2) * (gatedNiceCount text positions false : ℚ) := by
  simp only [aliasScore, aliasOccCtx]
  rw [foldl_occStep_mustBonus, foldl_occStep_niceBonus, foldl_occStep_headingBonus,
    foldl_occStep_techBonus]
  simp only [occInit]
  ring

/-- Claim C5 counterexample: for the devops term `Kubernetes` in
`"Bonus experience: Kubernetes"` the extractor reports score `7.6`, while the
claimed formula yields `6.1` even at the top of its 1.5–2.0 nice-to-have
range — the source adds both the bonus-experience `+2.0` and the generic
nice-to-have-indicator `+1.5` for the same single occurrence. -/
theorem score_exceeds_claim_formula :
    (extractKeywords dictKube textKube).keywords.map (fun e => (e.term, e.score)) =
        [("Kubernetes".data, 38 / 5)] ∧
      specClaimScoreMax textKube "kubernetes".data "Kubernetes".data "devops".data
          ((findKeywordPositions textKube "kubernetes".data).map (·.1)) = 61 / 10 ∧
      (61 : ℚ) / 10 < 38 / 5 :=
  ⟨by decide, by decide, by decide⟩

/-! ### Coverage of the sets by the keywords list -/

theorem alookup_none_iff {α : Type} {m : List (Str × α)} {k : Str} :
    alookup m k = none ↔ ∀ p ∈ m, ¬(p.1 = k) := by
  unfold alookup
  rw [Option.map_eq_none', List.find?_eq_none]
  simp only [decide_eq_true_eq]

theorem alookup_some_ex {α : Type} {m : List (Str × α)} {k : Str} {v : α}
    (h : alookup m k = some v) : ∃ q ∈ m, q.1 = k ∧ q.2 = v := by
  unfold alookup at h
  rw [Option.map_eq_some'] at h
  obtain ⟨q, hq, hqv⟩ := h
  have hm := List.mem_of_find?_eq_some hq
  have hp := List.find?_some hq
  simp only [decide_eq_true_eq] at hp
  exact ⟨q, hm, hp, hqv⟩

theorem dictUpsert_of_present {α : Type} {m : List (Str × α)} {k : Str} {v : α}
    (h : m.any (fun p => decide (p.1 = k)) = true) :
    dictUpsert m k v = m.map (fun p => if p.1 = k then (k, v) else p) := by
  unfold dictUpsert
  rw [h]
  simp

theorem scoresInv_upsert {V : List Str} {m : List (Str × KwEntry)} {c : Str}
    {entry : KwEntry} (hc : c ∈ V) (hterm : entry.term = c)
    (hS : ScoresInv V m) : ScoresInv V (dictUpsert m (lowerS c) entry) := by
  unfold dictUpsert
  split_ifs with hany
  · intro p hp
    obtain ⟨q, hq, hfq⟩ := List.mem_map.mp hp
    by_cases hk : q.1 = lowerS c
    · rw [if_pos hk] at hfq
      subst hfq
      exact ⟨by simp [hterm], by simp [hterm, hc]⟩
    · rw [if_neg hk] at hfq
      subst hfq
      exact hS q hq
  · intro p hp
    rcases List.mem_append.mp hp with hp | hp
    · exact hS p hp
    · simp only [List.mem_singleton] at hp
      subst hp
      exact ⟨by simp [hterm], by simp [hterm, hc]⟩

theorem termIn_upsert {V : List Str}
    (hinj : ∀ u ∈ V, ∀ v ∈ V, lowerS u = lowerS v → u = v)
    {m : List (Str × KwEntry)} {c : Str} {entry : KwEntry}
    (hc : c ∈ V) (hterm : entry.term = c) (hS : ScoresInv V m)
    {t : Str} (ht : t ∈ V) (h : ∃ p ∈ m, p.2.term = t) :
    ∃ p ∈ dictUpsert m (lowerS c) entry, p.2.term = t := by
  obtain ⟨p, hp, hpt⟩ := h
  unfold dictUpsert
  split_ifs with hany
  · by_cases hk : p.1 = lowerS c
    · refine ⟨(lowerS c, entry), List.mem_map.mpr ⟨p, hp, by rw [if_pos hk]⟩, ?_⟩
      have h1 := (hS p hp).1
      have hteq : t = c := by
        apply hinj t ht c hc
        rw [← hpt, ← h1, hk]
      simp [hterm, hteq]
    · exact ⟨p, List.mem_map.mpr ⟨p, hp, by rw [if_neg hk]⟩, hpt⟩
  · exact ⟨p, List.mem_append.mpr (Or.inl hp), hpt⟩

theorem termIn_upsert_self {m : List (Str × KwEntry)} {c : Str} {entry : KwEntry}
    (hterm : entry.term = c) :
    ∃ p ∈ dictUpsert m (lowerS c) entry, p.2.term = c := by
  unfold dictUpsert
  split_ifs with hany
  · obtain ⟨q, hq, hqk⟩ := List.any_eq_true.mp hany
    simp only [decide_eq_true_eq] at hqk
    exact ⟨(lowerS c, entry), List.mem_map.mpr ⟨q, hq, by rw [if_pos hqk]⟩, hterm⟩
  · exact ⟨(lowerS c, entry), List.mem_append.mpr (Or.inr (by simp)), hterm⟩

/-- The scores dictionary after one classification step is either unchanged
or an upsert at the canonical term's lowercased key with an entry carrying
the canonical term. -/
theorem dictStep_scores_cases (text : Str) (c2i : List (Str × Skill)) (st : PipeState)
    (e : Str × Str) :
    (dictStep text c2i st e).scores = st.scores ∨
      ∃ entry : KwEntry, entry.term = e.2 ∧
        (dictStep text c2i st e).scores = dictUpsert st.scores (lowerS e.2) entry := by
  simp only [dictStep]
  by_cases hp : (findKeywordPositions text e.1).map (·.1) = []
  · rw [if_pos hp]
    exact Or.inl rfl
  · rw [if_neg hp]
    rcases hm : alookup st.scores (lowerS e.2) with _ | old <;> simp only [hm]
    · exact Or.inr ⟨_, rfl, rfl⟩
    · split_ifs with hlt
      · exact Or.inr ⟨_, rfl, rfl⟩
      · exact Or.inl rfl

/-- Whenever the alias has occurrences, the scores dictionary afterwards owns
an entry whose term is the canonical term. -/
theorem dictStep_self_termIn {V : List Str}
    (hinj : ∀ u ∈ V, ∀ v ∈ V, lowerS u = lowerS v → u = v)
    {text : Str} {c2i : List (Str × Skill)} {st : PipeState} {e : Str × Str}
    (he : e.2 ∈ V) (hS : ScoresInv V st.scores)
    (hp : ¬((findKeywordPositions text e.1).map (·.1) = [])) :
    ∃ p ∈ (dictStep text c2i st e).scores, p.2.term = e.2 := by
  simp only [dictStep]
  rw [if_neg hp]
  rcases hm : alookup st.scores (lowerS e.2) with _ | old <;> simp only [hm]
  · exact termIn_upsert_self rfl
  · split_ifs with hlt
    · exact termIn_upsert_self rfl
    · obtain ⟨q, hq, hqk, hqv⟩ := alookup_some_ex hm
      refine ⟨q, hq, ?_⟩
      exact hinj q.2.term (hS q hq).2 e.2 he (by rw [← (hS q hq).1, hqk])

theorem dictStep_scoresInv {V : List Str} {text : Str} {c2i : List (Str × Skill)}
    {st : PipeState} {e : Str × Str} (he : e.2 ∈ V) (hS : ScoresInv V st.scores) :
    ScoresInv V (dictStep text c2i st e).scores := by
  rcases dictStep_scores_cases text c2i st e with h | ⟨entry, hterm, h⟩ <;> rw [h]
  · exact hS
  · exact scoresInv_upsert he hterm hS

theorem dictStep_termIn {V : List Str}
    (hinj : ∀ u ∈ V, ∀ v ∈ V, lowerS u = lowerS v → u = v)
    {text : Str} {c2i : List (Str × Skill)} {st : PipeState} {e : Str × Str}
    (he : e.2 ∈ V) (hS : ScoresInv V st.scores) {t : Str} (ht : t ∈ V)
    (h : ∃ p ∈ st.scores, p.2.term = t) :
    ∃ p ∈ (dictStep text c2i st e).scores, p.2.term = t := by
  rcases dictStep_scores_cases text c2i st e with hc | ⟨entry, hterm, hc⟩ <;> rw [hc]
  · exact h
  · exact termIn_upsert hinj he hterm hS ht h

/-- Fold invariant: through the whole alias loop the scores dictionary stays
canonical-keyed and the two sets stay covered by it. -/
theorem foldl_dictStep_cov {V : List Str} {text : Str} {c2i : List (Str × Skill)}
    (hinj : ∀ u ∈ V, ∀ v ∈ V, lowerS u = lowerS v → u = v) :
    ∀ (l : List (Str × Str)) (st : PipeState),
      (∀ e ∈ l, e.2 ∈ V) →
      ScoresInv V st.scores → SetsCovered V st →
      ScoresInv V (l.foldl (dictStep text c2i) st).scores ∧
        SetsCovered V (l.foldl (dictStep text c2i) st) := by
  intro l
  induction l with
  | nil => intro st _ hS hC; exact ⟨hS, hC⟩
  | cons e es ih =>
    intro st hl hS hC
    have he : e.2 ∈ V := hl e (by simp)
    simp only [List.foldl_cons]
    refine ih _ (fun x hx => hl x (by simp [hx])) (dictStep_scoresInv he hS) ?_
    by_cases hp : (findKeywordPositions text e.1).map (·.1) = []
    · have hst : dictStep text c2i st e = st := by
        simp only [dictStep]
        rw [if_pos hp]
      rw [hst]
      exact hC
    · intro t htmem
      have hcases : t ∈ st.must ∨ t ∈ st.nice ∨ t = e.2 := by
        rcases htmem with hmu | hni
        · rcases dictStep_must_sub hmu with h | h
          · exact Or.inl h
          · exact Or.inr (Or.inr h)
        · rcases dictStep_nice_sub hni with h | h
          · exact Or.inr (Or.inl h)
          · exact Or.inr (Or.inr h)
      rcases hcases with h | h | rfl
      · obtain ⟨htV, hwit⟩ := hC t (Or.inl h)
        exact ⟨htV, dictStep_termIn hinj he hS htV hwit⟩
      · obtain ⟨htV, hwit⟩ := hC t (Or.inr h)
        exact ⟨htV, dictStep_termIn hinj he hS htV hwit⟩
      · exact ⟨he, dictStep_self_termIn hinj he hS hp⟩

theorem dictPhase_cov {skills : List Skill} {text : Str}
    (hinj : ∀ u ∈ ((createSkillMapping skills).1).map (·.2),
      ∀ v ∈ ((createSkillMapping skills).1).map (·.2), lowerS u = lowerS v → u = v) :
    ScoresInv (((createSkillMapping skills).1).map (·.2)) (dictPhase skills text).scores ∧
      SetsCovered (((createSkillMapping skills).1).map (·.2)) (dictPhase skills text) := by
  simp only [dictPhase]
  exact foldl_dictStep_cov hinj _ ⟨[], [], []⟩
    (fun e he => List.mem_map_of_mem _ he)
    (fun p hp => absurd hp (List.not_mem_nil p))
    (fun t ht => by rcases ht with ht | ht <;> exact absurd ht (List.not_mem_nil t))

/-- One merge iteration keeps the key/term invariants and never loses a
stored term. -/
theorem mergeStep_inv {m : List (Str × KwEntry)} {k : KwEntry}
    (hKL : KeyIsLowerTerm m) (hKDT : KeyDeterminesTerm m) :
    KeyIsLowerTerm (mergeStep m k) ∧ KeyDeterminesTerm (mergeStep m k) ∧
      ∀ t, (∃ p ∈ m, p.2.term = t) → ∃ p ∈ mergeStep m k, p.2.term = t := by
  unfold mergeStep
  rcases hm : alookup m (lowerS k.term) with _ | old <;> simp only [hm]
  · have hnone := alookup_none_iff.mp hm
    have hfresh : m.any (fun p => decide (p.1 = lowerS k.term)) = false := by
      rw [List.any_eq_false]
      intro p hp
      simp only [decide_eq_true_eq]
      exact hnone p hp
    rw [dictUpsert_of_fresh hfresh]
    refine ⟨?_, ?_, ?_⟩
    · intro p hp
      rcases List.mem_append.mp hp with hp | hp
      · exact hKL p hp
      · simp only [List.mem_singleton] at hp
        subst hp
        rfl
    · intro p hp q hq hpq
      rcases List.mem_append.mp hp with hp | hp <;>
        rcases List.mem_append.mp hq with hq | hq
      · exact hKDT p hp q hq hpq
      · simp only [List.mem_singleton] at hq
        subst hq
        exact absurd hpq (hnone p hp)
      · simp only [List.mem_singleton] at hp
        subst hp
        exact absurd hpq.symm (hnone q hq)
      · simp only [List.mem_singleton] at hp hq
        subst hp
        subst hq
        rfl
    · intro t ht
      obtain ⟨p, hp, hpt⟩ := ht
      exact ⟨p, List.mem_append.mpr (Or.inl hp), hpt⟩
  · obtain ⟨q0, hq0, hq0k, hq0v⟩ := alookup_some_ex hm
    split_ifs with hlt
    · have hany : m.any (fun p => decide (p.1 = lowerS k.term)) = true := by
        rw [List.any_eq_true]
        exact ⟨q0, hq0, by simp [hq0k]⟩
      rw [dictUpsert_of_present hany]
      have hklow : lowerS k.term = lowerS old.term := by
        have hx := hKL q0 hq0
        rw [← hq0k, hx, hq0v]
      refine ⟨?_, ?_, ?_⟩
      · intro p hp
        obtain ⟨x, hx, hfx⟩ := List.mem_map.mp hp
        by_cases hk : x.1 = lowerS k.term
        · rw [if_pos hk] at hfx
          subst hfx
          exact hklow
        · rw [if_neg hk] at hfx
          subst hfx
          exact hKL x hx
      · intro p hp q hq hpq
        obtain ⟨x, hx, hfx⟩ := List.mem_map.mp hp
        obtain ⟨y, hy, hfy⟩ := List.mem_map.mp hq
        by_cases hkx : x.1 = lowerS k.term <;> by_cases hky : y.1 = lowerS k.term
        · rw [if_pos hkx] at hfx
          rw [if_pos hky] at hfy
          subst hfx
          subst hfy
          rfl
        · rw [if_pos hkx] at hfx
          rw [if_neg hky] at hfy
          subst hfx
          subst hfy
          exact absurd hpq.symm hky
        · rw [if_neg hkx] at hfx
          rw [if_pos hky] at hfy
          subst hfx
          subst hfy
          exact absurd hpq hkx
        · rw [if_neg hkx] at hfx
          rw [if_neg hky] at hfy
          subst hfx
          subst hfy
          exact hKDT x hx y hy hpq
      · intro t ht
        obtain ⟨p, hp, hpt⟩ := ht
        by_cases hk : p.1 = lowerS k.term
        · refine ⟨(lowerS k.term, ⟨old.term, old.category, k.score, max old.count k.count⟩),
            List.mem_map.mpr ⟨p, hp, by rw [if_pos hk]⟩, ?_⟩
          have hpq0 := hKDT p hp q0 hq0 (by rw [hk, hq0k])
          rw [← hpt, hpq0, hq0v]
        · exact ⟨p, List.mem_map.mpr ⟨p, hp, by rw [if_neg hk]⟩, hpt⟩
    · exact ⟨hKL, hKDT, fun t ht => ht⟩

theorem mergeDynamic_termIn {t : Str} :
    ∀ (dyn : List KwEntry) (m : List (Str × KwEntry)),
      KeyIsLowerTerm m → KeyDeterminesTerm m →
      (∃ p ∈ m, p.2.term = t) → ∃ p ∈ mergeDynamic m dyn, p.2.term = t := by
  intro dyn
  induction dyn with
  | nil =>
    intro m _ _ h
    exact h
  | cons k ks ih =>
    intro m hKL hKDT h
    have hstep := mergeStep_inv (k := k) hKL hKDT
    exact ih (mergeStep m k) hstep.1 hstep.2.1 (hstep.2.2 t h)

theorem keywordsAll_termIn {skills : List Skill} {text : Str} {t : Str}
    (h : ∃ p ∈ mergeDynamic (dictPhase skills text).scores (extractDynamicKeywords text),
      p.2.term = t) :
    ∃ e ∈ keywordsAll skills text, e.term = t := by
  obtain ⟨p, hp, hpt⟩ := h
  simp only [keywordsAll]
  exact ⟨_, List.mem_map_of_mem _ (mem_sortByScoreDesc.mpr (List.mem_map_of_mem _ hp)), hpt⟩

theorem foldl_safetyStep_sub {text : Str} :
    ∀ (inter : List Str) (mn : List Str × List Str) (t : Str),
      (t ∈ (inter.foldl (safetyStep text) mn).1 → t ∈ mn.1) ∧
        (t ∈ (inter.foldl (safetyStep text) mn).2 → t ∈ mn.2) := by
  intro inter
  induction inter with
  | nil => intro mn t; exact ⟨id, id⟩
  | cons i is ih =>
    intro mn t
    simp only [List.foldl_cons]
    refine ⟨fun h => ?_, fun h => ?_⟩
    · have h1 := (ih (safetyStep text mn i) t).1 h
      unfold safetyStep at h1
      split_ifs at h1
      · exact (List.mem_filter.mp h1).1
      · exact h1
    · have h1 := (ih (safetyStep text mn i) t).2 h
      unfold safetyStep at h1
      split_ifs at h1
      · exact h1
      · exact (List.mem_filter.mp h1).1

/-- Claim C8: every term of the returned `must_have_keywords` or
`nice_to_have_keywords` also appears, as the same canonical term, in the
returned `keywords` list — provided distinct canonical terms of the
dictionary never share a lowercase form (the scores dictionary is keyed by
lowercased canonical terms, so a case-colliding dictionary could break the
coverage; the real dictionary file is not part of the sources). -/
theorem must_nice_in_keywords (skills : List Skill) (text : Str)
    (hinj : ∀ u ∈ ((createSkillMapping skills).1).map (·.2),
      ∀ v ∈ ((createSkillMapping skills).1).map (·.2), lowerS u = lowerS v → u = v) :
    (∀ t ∈ (extractKeywords skills text).mustHave,
        ∃ e ∈ (extractKeywords skills text).keywords, e.term = t) ∧
      (∀ t ∈ (extractKeywords skills text).niceToHave,
        ∃ e ∈ (extractKeywords skills text).keywords, e.term = t) := by
  obtain ⟨hS, hC⟩ := @dictPhase_cov skills text hinj
  have hKL : KeyIsLowerTerm (dictPhase skills text).scores := fun p hp => (hS p hp).1
  have hKDT : KeyDeterminesTerm (dictPhase skills text).scores := by
    intro p hp q hq hpq
    exact hinj p.2.term (hS p hp).2 q.2.term (hS q hq).2
      (by rw [← (hS p hp).1, ← (hS q hq).1, hpq])
  constructor
  · intro t ht
    obtain ⟨hres, hsf⟩ := extract_mustHave_mem ht
    have hmust : t ∈ (dictPhase skills text).must := by
      unfold resolveSets at hres
      unfold safetyFold at hres
      exact (foldl_safetyStep_sub _ _ t).1 hres
    obtain ⟨htV, hwit⟩ := hC t (Or.inl hmust)
    obtain ⟨e, he, het⟩ :=
      keywordsAll_termIn (mergeDynamic_termIn _ _ hKL hKDT hwit)
    refine ⟨e, ?_, het⟩
    unfold extractKeywords
    simp only
    exact List.mem_filter.mpr ⟨he, by simp [het, hsf]⟩
  · intro t ht
    obtain ⟨hres, hsf⟩ := extract_niceToHave_mem ht
    have hnice : t ∈ (dictPhase skills text).nice := by
      unfold resolveSets at hres
      have hres2 := (List.mem_filter.mp hres).1
      unfold safetyFold at hres2
      exact (foldl_safetyStep_sub _ _ t).2 hres2
    obtain ⟨htV, hwit⟩ := hC t (Or.inr hnice)
    obtain ⟨e, he, het⟩ :=
      keywordsAll_termIn (mergeDynamic_termIn _ _ hKL hKDT hwit)
    refine ⟨e, ?_, het⟩
    unfold extractKeywords
    simp only
    exact List.mem_filter.mpr ⟨he, by simp [het, hsf]⟩

theorem must_nice_in_keywords_witness :
    (∀ u ∈ ((createSkillMapping dictNoAlias).1).map (·.2),
        ∀ v ∈ ((createSkillMapping dictNoAlias).1).map (·.2), lowerS u = lowerS v → u = v) ∧
      ((∀ t ∈ (extractKeywords dictNoAlias textC3w).mustHave,
          ∃ e ∈ (extractKeywords dictNoAlias textC3w).keywords, e.term = t) ∧
        (∀ t ∈ (extractKeywords dictNoAlias textC3w).niceToHave,
          ∃ e ∈ (extractKeywords dictNoAlias textC3w).keywords, e.term = t)) :=
  ⟨by decide, must_nice_in_keywords dictNoAlias textC3w (by decide)⟩

end JDSignal
